import Mathlib

/-!
Shallow embedding of `mph.go` (package mph, a hash/displace minimal perfect
hash function) and proofs about it.

Modelling conventions:
* `uint64`/`uint32`/`int32` values are `Nat`s; arithmetic that wraps in Go is
  reduced modulo `2^64` explicitly where the wrap can occur.
* The Go slices `values []int32` and `seeds []uint32` (both of length `size`)
  are modelled as index functions `Nat → Nat` together with the explicit
  length `size`; every read and write the source performs is proved to use an
  index `< size` (see the in-bounds theorems), so the functional model agrees
  with the array semantics.
* Go stores `int32(idx) + 1` in `values` so that `0` means "empty"; the model
  stores `idx + 1 : Nat`.  For every input the source accepts
  (`len(keys) ≤ 2^31`) the stored values' zero/non-zero status and the final
  0-based ordinals coincide with Go's `int32` arithmetic.
* `sort.Slice(h, func(i, j) { return len(h[i]) > len(h[j]) })` is an
  unstable sort whose only ordering information is the comparator
  `bucketBefore`; it is modelled as an insertion sort using exactly that
  comparator, which yields one of the permutations `sort.Slice` may yield
  (a permutation of `h` that is descending in bucket length).
* The map `entries map[uint64]int32` is modelled as an association list; a
  missing key reads as `0`, as in Go.
-/

namespace MPH

/-- Modulus of 64-bit unsigned arithmetic. -/
def U64 : Nat := 2 ^ 64

/-- Go: `singletonBit = uint32(1 << 31)`. -/
def singletonBit : Nat := 2 ^ 31

/-- Go: `payloadMask = ^singletonBit` within `uint32`, i.e. the low 31 bits. -/
def payloadMask : Nat := 2 ^ 31 - 1

/-- Go lines 179-184: the xorshift-multiply mixing function, on `uint64`. -/
def xorshiftMult64 (x : Nat) : Nat :=
  let x1 := x ^^^ (x >>> 12)
  let x2 := (x1 ^^^ (x1 <<< 25)) % U64
  let x3 := x2 ^^^ (x2 >>> 27)
  x3 * 2685821657736338717 % U64

/-- Loop body of Go's `nextPower2` (lines 187-193): `i := 1; for i < n { i <<= 1 }`.
The fuel argument only bounds the iteration count; fuel `n` always suffices
because the loop runs at most `log2 n + 1 ≤ n` times. -/
def nextPower2Aux (n : Nat) : Nat → Nat → Nat
  | 0, i => i
  | fuel + 1, i => if i < n then nextPower2Aux n fuel (i * 2) else i

/-- Go lines 186-193: smallest power of two `≥ n` (and `1` for `n = 0`). -/
def nextPower2 (n : Nat) : Nat := nextPower2Aux n n 1

/-- Go lines 32-35: a key together with its shifted ordinal.  The source
stores `int32(idx) + 1` in the `idx` field's role (0 meaning "empty"), so
`idx` here is the 1-based ordinal. -/
structure Entry where
  idx : Nat
  hash : Nat
deriving DecidableEq

instance : Inhabited Entry := ⟨⟨0, 0⟩⟩

/-- Home slot of a fingerprint: its low bits (Go: `hash & mask`). -/
def homeOf (mask hash : Nat) : Nat := hash &&& mask

/-- Displaced slot for a candidate seed (Go lines 97 and 175):
`xorshiftMult64(hash+seed) & mask`, the addition wrapping at `2^64`. -/
def slotOf (mask seed hash : Nat) : Nat :=
  xorshiftMult64 ((hash + seed) % U64) &&& mask

/-- One step of Go lines 70-76: append entry `{int32(idx)+1, hash}` to the
bucket at index `hash & mask`. -/
def addToBucket (mask : Nat) (h : List (List Entry)) (p : Nat × Nat) : List (List Entry) :=
  h.set (homeOf mask p.2) (h.getD (homeOf mask p.2) [] ++ [⟨p.1 + 1, p.2⟩])

/-- Go lines 66, 70-76: the bucket array `h`, one (possibly empty) bucket per
slot, each bucket listing its members in input order. -/
def bucketize (keys : List Nat) (size mask : Nat) : List (List Entry) :=
  keys.enum.foldl (addToBucket mask) (List.replicate size [])

/-- Comparator of Go line 79: `len(h[i]) > len(h[j])` (bigger buckets first). -/
def bucketBefore (a b : List Entry) : Bool := decide (b.length < a.length)

/-- Insertion step of the modelled sort, driven only by `bucketBefore`. -/
def insertBucket (x : List Entry) : List (List Entry) → List (List Entry)
  | [] => [x]
  | y :: ys => if bucketBefore x y then x :: y :: ys else y :: insertBucket x ys

/-- Model of `sort.Slice(h, ...)` at Go line 79: produces a permutation of the
buckets that is descending in length, using exactly the source's comparator. -/
def sortBuckets : List (List Entry) → List (List Entry)
  | [] => []
  | x :: xs => insertBucket x (sortBuckets xs)

/-- Read of the Go scratch map `entries[i]`; a missing key reads as `0`. -/
def scratchGet (entries : List (Nat × Nat)) (i : Nat) : Nat :=
  (entries.lookup i).getD 0

/-- Go lines 96-110: one seed attempt for one bucket.  Members are placed one
by one; a slot already claimed in this attempt (`entries[i] != 0`) or
permanently occupied (`values[i] != 0`) aborts the attempt (the source then
clears the scratch map and retries, i.e. the attempt yields nothing). -/
def tryPlace (mask seed : Nat) (values : Nat → Nat) :
    List Entry → List (Nat × Nat) → Option (List (Nat × Nat))
  | [], entries => some entries
  | e :: rest, entries =>
    let i := slotOf mask seed e.hash
    if scratchGet entries i = 0 ∧ values i = 0 then
      tryPlace mask seed values rest ((i, e.idx) :: entries)
    else
      none

/-- Go lines 85-113: the seed search loop.  `seed` starts at 0 and is
incremented before each attempt; the search fails when the incremented seed
reaches `2^31`.  Fuel `2^31` makes the recursion structural and is exactly
enough for the `2^31 ≤ s` test to be the deciding failure condition. -/
def findSeed (mask : Nat) (values : Nat → Nat) (bucket : List Entry) :
    Nat → Nat → Option (Nat × List (Nat × Nat))
  | 0, _ => none
  | fuel + 1, seed =>
    let s := seed + 1
    if 2 ^ 31 ≤ s then none
    else
      match tryPlace mask s values bucket [] with
      | some entries => some (s, entries)
      | none => findSeed mask values bucket fuel s

/-- Pointwise update of a modelled array. -/
def upd (f : Nat → Nat) (i v : Nat) : Nat → Nat :=
  fun j => if j = i then v else f j

/-- Go lines 116-118: commit the scratch placements into `values`.  The Go map
iteration order is irrelevant because all claimed slots are distinct. -/
def commit (entries : List (Nat × Nat)) (values : Nat → Nat) : Nat → Nat :=
  entries.foldl (fun v p => upd v p.1 p.2) values

/-- Home slot of a bucket via its first member (Go line 121:
`subkeys[0].hash & mask`). -/
def bucketHome (mask : Nat) (b : List Entry) : Nat := homeOf mask b.headI.hash

/-- Go lines 81-123: process the `len > 1` prefix of the sorted bucket list;
each bucket's accepted placements are committed and its seed is stored at the
bucket's home slot.  Returns `none` when the seed search fails. -/
def solveMulti (mask : Nat) :
    List (List Entry) → (Nat → Nat) → (Nat → Nat) → Option ((Nat → Nat) × (Nat → Nat))
  | [], values, seeds => some (values, seeds)
  | b :: rest, values, seeds =>
    match findSeed mask values b (2 ^ 31) 0 with
    | none => none
    | some (seed, entries) =>
        solveMulti mask rest (commit entries values) (upd seeds (bucketHome mask b) seed)

/-- Go lines 127-135 (collection part): the still-free slots, in ascending
index order. -/
def freeList (size : Nat) (values : Nat → Nat) : List Nat :=
  (List.range size).filter (fun i => values i = 0)

/-- Go line 133: every occupied slot's stored `idx+1` becomes the 0-based
ordinal; empty slots stay `0`. -/
def decValues (values : Nat → Nat) : Nat → Nat :=
  fun i => if values i = 0 then 0 else values i - 1

/-- Go lines 137-148: assign each remaining singleton bucket the next free
slot `dst` and record the singleton descriptor `singletonBit | dst` at the
bucket's home slot.  (`free[0]` on an empty free list would panic in Go; the
free-list sufficiency theorem shows the list is never empty here.) -/
def placeSingles (mask : Nat) :
    List (List Entry) → List Nat → (Nat → Nat) → (Nat → Nat) → (Nat → Nat) × (Nat → Nat)
  | [], _, values, seeds => (values, seeds)
  | b :: rest, free, values, seeds =>
    let e := b.headI
    let dst := free.headI
    placeSingles mask rest free.tail (upd values dst (e.idx - 1))
      (upd seeds (homeOf mask e.hash) (singletonBit ||| dst))

/-- Table of Go lines 21-25.  `size` models `len(Values) = len(Seeds)`; the
two slices are modelled as index functions (see the module docstring). -/
structure Table where
  Values : Nat → Nat
  Seeds : Nat → Nat
  Mask : Nat
  size : Nat

/-- The three build failures of Go's `NewUint64` (each a distinct wrapped
`ErrCouldNotBuildTable` message in the source). -/
inductive BuildError where
  | tooManyKeys : BuildError
  | duplicateKey : BuildError
  | noSeed : BuildError
deriving DecidableEq

/-- Adjacent-equal scan of Go lines 58-62. -/
def hasAdjacentDup : List Nat → Bool
  | [] => false
  | [_] => false
  | a :: b :: rest => a == b || hasAdjacentDup (b :: rest)

/-- Go lines 55-62: duplicate detection on a sorted copy of the keys (the
input list itself is untouched; sorting `uint64`s ascending has a unique
result, so any correct sort models `sort.Slice` here exactly). -/
def dupCheck (keys : List Nat) : Bool :=
  hasAdjacentDup (List.insertionSort (· ≤ ·) keys)

/-- Go line 64: `size := uint64(nextPower2(len(keys)))`. -/
def buildSize (keys : List Nat) : Nat := nextPower2 keys.length

/-- Go line 65: `mask := size - 1`. -/
def buildMask (keys : List Nat) : Nat := buildSize keys - 1

/-- The bucket array after the sort of Go line 79. -/
def buildBuckets (keys : List Nat) : List (List Entry) :=
  sortBuckets (bucketize keys (buildSize keys) (buildMask keys))

/-- The buckets processed by the first loop (Go line 82: it runs while
`len(h[hidx]) > 1`, i.e. over the length>1 prefix of the sorted array). -/
def multiBuckets (keys : List Nat) : List (List Entry) :=
  (buildBuckets keys).takeWhile fun b => decide (1 < b.length)

/-- The buckets remaining when the first loop stops. -/
def restBuckets (keys : List Nat) : List (List Entry) :=
  (buildBuckets keys).dropWhile fun b => decide (1 < b.length)

/-- The buckets processed by the singleton loop (Go line 137: it continues
from `hidx` while `len(h[hidx]) > 0`). -/
def singleBuckets (keys : List Nat) : List (List Entry) :=
  (restBuckets keys).takeWhile fun b => decide (0 < b.length)

/-- Go lines 46-155: `NewUint64`. -/
def NewUint64 (keys : List Nat) : Except BuildError Table :=
  if keys.length = 0 then .ok ⟨fun _ => 0, fun _ => 0, 0, 0⟩
  else if 2 ^ 31 < keys.length then .error .tooManyKeys
  else if dupCheck keys then .error .duplicateKey
  else
    match solveMulti (buildMask keys) (multiBuckets keys) (fun _ => 0) (fun _ => 0) with
    | none => .error .noSeed
    | some (values, seeds) =>
      let p := placeSingles (buildMask keys) (singleBuckets keys)
        (freeList (buildSize keys) values) (decValues values) seeds
      .ok ⟨p.1, p.2, buildMask keys, buildSize keys⟩

/-- Go lines 157-177: `Query`.  Returns `-1` for the empty table, otherwise
the `int32` stored at the slot the seed descriptor routes to. -/
def Table.Query (t : Table) (hash : Nat) : Int :=
  if t.size = 0 then -1
  else
    let i := homeOf t.Mask hash
    let s := t.Seeds i
    if s &&& singletonBit ≠ 0 then (t.Values (s &&& payloadMask) : Int)
    else (t.Values (slotOf t.Mask (s &&& payloadMask) hash) : Int)

/-- Index into `Values` that `Query` reads for `hash` (the singleton payload
or the recomputed displaced slot). -/
def queryValuesSlot (t : Table) (hash : Nat) : Nat :=
  let s := t.Seeds (homeOf t.Mask hash)
  if s &&& singletonBit ≠ 0 then s &&& payloadMask
  else slotOf t.Mask (s &&& payloadMask) hash

/-- All indices `Query` computes for `hash` are strictly below the table
size: the home slot read from `Seeds` and the `Values` slot it routes to. -/
def queryInBounds (t : Table) (hash : Nat) : Prop :=
  homeOf t.Mask hash < t.size ∧ queryValuesSlot t hash < t.size

instance (t : Table) (hash : Nat) : Decidable (queryInBounds t hash) := by
  unfold queryInBounds
  exact inferInstance

/-- Specification-side description of one bucket of `bucketize`: the keys
whose home slot is `b`, in input order, paired with their 1-based ordinals. -/
def bucketSpec (l : List (Nat × Nat)) (mask b : Nat) : List Entry :=
  (l.filter fun p => homeOf mask p.2 = b).map fun p => ⟨p.1 + 1, p.2⟩

/-- Number of occupied (non-zero) slots among the first `size` slots. -/
def occCount (size : Nat) (v : Nat → Nat) : Nat :=
  ((Finset.range size).filter fun j => v j ≠ 0).card

/-- Slots a candidate seed sends a bucket's members to. -/
def slotsOf (mask seed : Nat) (ks : List Entry) : List Nat :=
  ks.map fun e => slotOf mask seed e.hash

/-! ### Bit-level facts about the seed encoding -/

lemma and_mask_eq_mod (x k : Nat) : x &&& (2 ^ k - 1) = x % 2 ^ k :=
  Nat.and_pow_two_sub_one_eq_mod x k

lemma and_mask_lt (x k : Nat) : x &&& (2 ^ k - 1) < 2 ^ k := by
  rw [and_mask_eq_mod]
  exact Nat.mod_lt _ (Nat.pos_pow_of_pos k (by norm_num))

lemma seed_and_singletonBit {s : Nat} (h : s < singletonBit) :
    s &&& singletonBit = 0 := by
  rw [singletonBit] at *
  rw [Nat.and_two_pow, Nat.testBit_lt_two_pow h]
  rfl

lemma seed_and_payloadMask {s : Nat} (h : s < singletonBit) :
    s &&& payloadMask = s := by
  rw [singletonBit] at h
  rw [payloadMask, and_mask_eq_mod, Nat.mod_eq_of_lt h]

lemma desc_and_singletonBit (d : Nat) :
    (singletonBit ||| d) &&& singletonBit ≠ 0 := by
  rw [singletonBit, Nat.and_two_pow, Nat.testBit_lor, Nat.testBit_two_pow]
  simp

lemma desc_and_payloadMask {d : Nat} (h : d < singletonBit) :
    (singletonBit ||| d) &&& payloadMask = d := by
  rw [singletonBit] at h
  apply Nat.eq_of_testBit_eq
  intro i
  simp only [payloadMask, singletonBit, Nat.testBit_land, Nat.testBit_lor,
    Nat.testBit_two_pow, Nat.testBit_two_pow_sub_one]
  rcases lt_trichotomy i 31 with hi | hi | hi
  · simp [hi, Nat.ne_of_gt hi]
  · subst hi
    simp [Nat.testBit_lt_two_pow h]
  · have hd : d < 2 ^ i :=
      lt_of_lt_of_le h (Nat.pow_le_pow_right (by norm_num) (by omega))
    have h31 : ¬ i < 31 := by omega
    simp [Nat.testBit_lt_two_pow hd, hi.ne, h31]

/-! ### Facts about `nextPower2` -/

lemma nextPower2Aux_pow (n : Nat) :
    ∀ fuel j, ∃ k, nextPower2Aux n fuel (2 ^ j) = 2 ^ k := by
  intro fuel
  induction fuel with
  | zero => exact fun j => ⟨j, rfl⟩
  | succ fuel ih =>
    intro j
    rw [nextPower2Aux]
    by_cases h : 2 ^ j < n
    · simp only [h, if_true]
      have : 2 ^ j * 2 = 2 ^ (j + 1) := by ring
      rw [this]
      exact ih (j + 1)
    · simp only [h, if_false]
      exact ⟨j, rfl⟩

lemma nextPower2Aux_ge (n : Nat) :
    ∀ fuel i, n ≤ i * 2 ^ fuel → n ≤ nextPower2Aux n fuel i := by
  intro fuel
  induction fuel with
  | zero => intro i h; simpa using h
  | succ fuel ih =>
    intro i h
    rw [nextPower2Aux]
    by_cases hc : i < n
    · simp only [hc, if_true]
      apply ih
      calc n ≤ i * 2 ^ (fuel + 1) := h
        _ = i * 2 * 2 ^ fuel := by ring
    · simpa [hc] using Nat.le_of_not_lt hc

lemma nextPower2Aux_le_pow (n t : Nat) (hn : n ≤ 2 ^ t) :
    ∀ fuel j, j ≤ t → nextPower2Aux n fuel (2 ^ j) ≤ 2 ^ t := by
  intro fuel
  induction fuel with
  | zero => intro j hj; exact Nat.pow_le_pow_right (by norm_num) hj
  | succ fuel ih =>
    intro j hj
    rw [nextPower2Aux]
    by_cases h : 2 ^ j < n
    · simp only [h, if_true]
      have hjt : j < t := by
        by_contra hc
        have : j = t := le_antisymm hj (Nat.le_of_not_lt hc)
        subst this
        omega
      have : 2 ^ j * 2 = 2 ^ (j + 1) := by ring
      rw [this]
      exact ih (j + 1) hjt
    · simp only [h, if_false]
      exact Nat.pow_le_pow_right (by norm_num) hj

lemma nextPower2_pow (n : Nat) : ∃ k, nextPower2 n = 2 ^ k := by
  have := nextPower2Aux_pow n n 0
  simpa [nextPower2] using this

lemma le_nextPower2 (n : Nat) : n ≤ nextPower2 n := by
  apply nextPower2Aux_ge
  simpa using (Nat.lt_two_pow n).le

lemma nextPower2_pos (n : Nat) : 0 < nextPower2 n := by
  obtain ⟨k, hk⟩ := nextPower2_pow n
  rw [hk]
  exact Nat.pos_pow_of_pos k (by norm_num)

lemma nextPower2_le_pow (n t : Nat) (hn : n ≤ 2 ^ t) : nextPower2 n ≤ 2 ^ t := by
  have := nextPower2Aux_le_pow n t hn n 0 (Nat.zero_le t)
  simpa [nextPower2] using this

/-! ### Facts about the bucket sort -/

lemma mem_insertBucket {x y : List Entry} :
    ∀ {l : List (List Entry)}, y ∈ insertBucket x l ↔ y = x ∨ y ∈ l := by
  intro l
  induction l with
  | nil => simp [insertBucket]
  | cons z zs ih =>
    rw [insertBucket]
    cases h : bucketBefore x z
    · rw [if_neg (by simp), List.mem_cons, List.mem_cons, ih]
      tauto
    · rw [if_pos rfl, List.mem_cons, List.mem_cons]

lemma insertBucket_perm (x : List Entry) (l : List (List Entry)) :
    (insertBucket x l).Perm (x :: l) := by
  induction l with
  | nil => rfl
  | cons z zs ih =>
    rw [insertBucket]
    cases h : bucketBefore x z
    · rw [if_neg (by simp)]
      exact (ih.cons z).trans (List.Perm.swap x z zs)
    · rw [if_pos rfl]

lemma sortBuckets_perm (l : List (List Entry)) : (sortBuckets l).Perm l := by
  induction l with
  | nil => rfl
  | cons x xs ih =>
    rw [sortBuckets]
    exact (insertBucket_perm x (sortBuckets xs)).trans (ih.cons x)

lemma insertBucket_pairwise {x : List Entry} {l : List (List Entry)}
    (hl : l.Pairwise fun a b => b.length ≤ a.length) :
    (insertBucket x l).Pairwise fun a b => b.length ≤ a.length := by
  induction l with
  | nil => simp [insertBucket]
  | cons z zs ih =>
    rw [insertBucket]
    rw [List.pairwise_cons] at hl
    cases h : bucketBefore x z
    · have hxz : x.length ≤ z.length := by
        have := of_decide_eq_false h
        omega
      rw [if_neg (by simp)]
      rw [List.pairwise_cons]
      refine ⟨?_, ih hl.2⟩
      intro a ha
      rcases mem_insertBucket.mp ha with rfl | ha
      · exact hxz
      · exact hl.1 a ha
    · have hzx : z.length < x.length := of_decide_eq_true h
      rw [if_pos rfl]
      rw [List.pairwise_cons]
      constructor
      · intro a ha
        rcases List.mem_cons.mp ha with rfl | ha
        · exact hzx.le
        · exact (hl.1 a ha).trans hzx.le
      · rw [List.pairwise_cons]
        exact hl

lemma sortBuckets_sorted (l : List (List Entry)) :
    (sortBuckets l).Pairwise fun a b => b.length ≤ a.length := by
  induction l with
  | nil => simp [sortBuckets]
  | cons x xs ih =>
    rw [sortBuckets]
    exact insertBucket_pairwise ih

/-- In a length-descending list, everything after the `c < length` prefix has
length at most `c`. -/
lemma pairwise_dropWhile_len_le (c : Nat) :
    ∀ {l : List (List Entry)}, (l.Pairwise fun a b => b.length ≤ a.length) →
      ∀ b ∈ l.dropWhile (fun b => decide (c < b.length)), b.length ≤ c := by
  intro l
  induction l with
  | nil => simp
  | cons x xs ih =>
    intro hp b hb
    rw [List.pairwise_cons] at hp
    rw [List.dropWhile_cons] at hb
    by_cases h : c < x.length
    · simp only [decide_eq_true h, if_true] at hb
      exact ih hp.2 b hb
    · simp only [decide_eq_false h, if_false] at hb
      rcases List.mem_cons.mp hb with rfl | hb
      · omega
      · exact (hp.1 b hb).trans (by omega)

lemma buildBuckets_eq_append (keys : List Nat) :
    buildBuckets keys =
      multiBuckets keys ++ singleBuckets keys ++
        ((restBuckets keys).dropWhile fun b => decide (0 < b.length)) := by
  rw [multiBuckets, singleBuckets, List.append_assoc,
    List.takeWhile_append_dropWhile, restBuckets, List.takeWhile_append_dropWhile]

lemma mem_multiBuckets_length {keys : List Nat} {b : List Entry}
    (hb : b ∈ multiBuckets keys) : 1 < b.length := by
  have := List.mem_takeWhile_imp hb
  exact of_decide_eq_true this

lemma mem_singleBuckets_length {keys : List Nat} {b : List Entry}
    (hb : b ∈ singleBuckets keys) : b.length = 1 := by
  have hb' : b ∈ (restBuckets keys).takeWhile fun b => decide (0 < b.length) := hb
  have h1' := List.mem_takeWhile_imp hb'
  have h1 : 0 < b.length := of_decide_eq_true h1'
  have hmem : b ∈ restBuckets keys := List.Sublist.mem hb' (List.takeWhile_sublist _)
  have h2 : b.length ≤ 1 :=
    pairwise_dropWhile_len_le 1 (sortBuckets_sorted _) b hmem
  omega

lemma mem_dropSingles_eq_nil {keys : List Nat} {b : List Entry}
    (hb : b ∈ (restBuckets keys).dropWhile fun b => decide (0 < b.length)) :
    b = [] := by
  have hp : (restBuckets keys).Pairwise fun a b => b.length ≤ a.length :=
    List.Pairwise.sublist (List.dropWhile_sublist _) (sortBuckets_sorted _)
  have := pairwise_dropWhile_len_le 0 hp b hb
  exact List.length_eq_zero.mp (by omega)

/-- Every non-empty bucket of the sorted array is processed by one of the two
loops. -/
lemma mem_multi_or_single {keys : List Nat} {b : List Entry}
    (hb : b ∈ buildBuckets keys) (hne : b ≠ []) :
    b ∈ multiBuckets keys ∨ b ∈ singleBuckets keys := by
  rw [buildBuckets_eq_append] at hb
  rcases List.mem_append.mp hb with h | h
  · exact (List.mem_append.mp h).imp id id
  · exact absurd (mem_dropSingles_eq_nil h) hne

/-! ### Characterisation of `bucketize` -/

lemma homeOf_le_mask (mask hash : Nat) : homeOf mask hash ≤ mask :=
  Nat.and_le_right

lemma length_addToBucket (mask : Nat) (h : List (List Entry)) (p : Nat × Nat) :
    (addToBucket mask h p).length = h.length :=
  List.length_set h _ _

lemma length_foldl_addToBucket (mask : Nat) :
    ∀ (l : List (Nat × Nat)) (h : List (List Entry)),
      (l.foldl (addToBucket mask) h).length = h.length := by
  intro l
  induction l with
  | nil => intro h; rfl
  | cons p l ih =>
    intro h
    rw [List.foldl_cons, ih, length_addToBucket]

lemma length_bucketize (keys : List Nat) (size mask : Nat) :
    (bucketize keys size mask).length = size := by
  rw [bucketize, length_foldl_addToBucket, List.length_replicate]

lemma getD_addToBucket_ne {mask b : Nat} {h : List (List Entry)} {p : Nat × Nat}
    (hne : homeOf mask p.2 ≠ b) :
    (addToBucket mask h p).getD b [] = h.getD b [] := by
  rw [addToBucket, List.getD_eq_getElem?_getD, List.getElem?_set_ne hne,
    ← List.getD_eq_getElem?_getD]

lemma getD_addToBucket_eq {mask : Nat} {h : List (List Entry)} {p : Nat × Nat}
    (hlt : homeOf mask p.2 < h.length) :
    (addToBucket mask h p).getD (homeOf mask p.2) [] =
      h.getD (homeOf mask p.2) [] ++ [⟨p.1 + 1, p.2⟩] := by
  rw [addToBucket, List.getD_eq_getElem?_getD, List.getElem?_set_eq hlt]
  rfl

lemma bucketSpec_nil (mask b : Nat) : bucketSpec [] mask b = [] := rfl

lemma bucketSpec_cons (p : Nat × Nat) (l : List (Nat × Nat)) (mask b : Nat) :
    bucketSpec (p :: l) mask b =
      (if homeOf mask p.2 = b then [(⟨p.1 + 1, p.2⟩ : Entry)] else []) ++ bucketSpec l mask b := by
  rw [bucketSpec, List.filter_cons]
  by_cases hb : homeOf mask p.2 = b
  · rw [if_pos (decide_eq_true hb), if_pos hb, List.map_cons]
    rfl
  · rw [if_neg (by simpa using hb), if_neg hb, List.nil_append]
    rfl

lemma foldl_addToBucket_getD (mask : Nat) :
    ∀ (l : List (Nat × Nat)) (h : List (List Entry)) (b : Nat), mask < h.length →
      (l.foldl (addToBucket mask) h).getD b [] = h.getD b [] ++ bucketSpec l mask b := by
  intro l
  induction l with
  | nil => intro h b _; simp [bucketSpec]
  | cons p l ih =>
    intro h b hmask
    have hlen : mask < (addToBucket mask h p).length := by
      rw [length_addToBucket]; exact hmask
    rw [List.foldl_cons, ih (addToBucket mask h p) b hlen, bucketSpec_cons]
    by_cases hb : homeOf mask p.2 = b
    · subst hb
      have hlt : homeOf mask p.2 < h.length :=
        lt_of_le_of_lt (homeOf_le_mask mask p.2) hmask
      rw [getD_addToBucket_eq hlt, if_pos rfl, List.append_assoc]
    · rw [getD_addToBucket_ne hb, if_neg hb, List.nil_append]

lemma bucketize_getD {keys : List Nat} {size mask b : Nat}
    (hmask : mask < size) :
    (bucketize keys size mask).getD b [] = bucketSpec keys.enum mask b := by
  rw [bucketize, foldl_addToBucket_getD mask keys.enum (List.replicate size [])
    b (by simpa using hmask)]
  rw [List.getD_eq_getElem?_getD, List.getElem?_replicate]
  by_cases hb : b < size
  · rw [if_pos hb]; rfl
  · rw [if_neg hb]; rfl

lemma mem_bucketSpec {l : List (Nat × Nat)} {mask b : Nat} {e : Entry} :
    e ∈ bucketSpec l mask b ↔ ∃ p ∈ l, homeOf mask p.2 = b ∧ e = ⟨p.1 + 1, p.2⟩ := by
  rw [bucketSpec]
  simp only [List.mem_map, List.mem_filter, decide_eq_true_eq]
  constructor
  · rintro ⟨p, ⟨hpl, hpb⟩, rfl⟩
    exact ⟨p, hpl, hpb, rfl⟩
  · rintro ⟨p, hpl, hpb, rfl⟩
    exact ⟨p, ⟨hpl, hpb⟩, rfl⟩

lemma bucketSpec_home {l : List (Nat × Nat)} {mask b : Nat} {e : Entry}
    (he : e ∈ bucketSpec l mask b) : homeOf mask e.hash = b := by
  obtain ⟨p, _, hpb, rfl⟩ := mem_bucketSpec.mp he
  exact hpb

/-- A non-empty `bucketSpec` bucket's `bucketHome` is its defining slot. -/
lemma bucketSpec_bucketHome {l : List (Nat × Nat)} {mask b : Nat}
    (hne : bucketSpec l mask b ≠ []) :
    bucketHome mask (bucketSpec l mask b) = b := by
  rw [bucketHome]
  have hmem : (bucketSpec l mask b).headI ∈ bucketSpec l mask b := by
    cases hspec : bucketSpec l mask b with
    | nil => exact absurd hspec hne
    | cons x xs => simp [List.headI]
  exact bucketSpec_home hmem

/-- Every member of a bucket shares the bucket's home slot. -/
lemma mem_buildBuckets_home {keys : List Nat} {b : List Entry}
    (hb : b ∈ buildBuckets keys) {e : Entry} (he : e ∈ b) :
    homeOf (buildMask keys) e.hash = bucketHome (buildMask keys) b := by
  have hmask : buildMask keys < buildSize keys := by
    rw [buildMask]
    have := nextPower2_pos keys.length
    rw [buildSize] at *
    omega
  have hbz : b ∈ bucketize keys (buildSize keys) (buildMask keys) :=
    (sortBuckets_perm (bucketize keys (buildSize keys) (buildMask keys))).mem_iff.mp hb
  obtain ⟨i, hi, hbi⟩ := List.mem_iff_getElem.mp hbz
  have hgetD : b = bucketSpec keys.enum (buildMask keys) i := by
    rw [← hbi, ← List.getD_eq_getElem _ [] hi, bucketize_getD hmask]
  have hne : b ≠ [] := by
    intro hnil
    rw [hnil] at he
    exact absurd he (List.not_mem_nil e)
  rw [hgetD] at he hne ⊢
  rw [bucketSpec_bucketHome hne]
  exact bucketSpec_home he

/-- Every member of every bucket is a genuine key with its 1-based ordinal. -/
lemma mem_buildBuckets_entry {keys : List Nat} {b : List Entry}
    (hb : b ∈ buildBuckets keys) {e : Entry} (he : e ∈ b) :
    ∃ i, ∃ hi : i < keys.length, e = ⟨i + 1, keys[i]⟩ := by
  have hmask : buildMask keys < buildSize keys := by
    rw [buildMask]
    have := nextPower2_pos keys.length
    rw [buildSize] at *
    omega
  have hbz : b ∈ bucketize keys (buildSize keys) (buildMask keys) :=
    (sortBuckets_perm (bucketize keys (buildSize keys) (buildMask keys))).mem_iff.mp hb
  obtain ⟨i, hi, hbi⟩ := List.mem_iff_getElem.mp hbz
  have hgetD : b = bucketSpec keys.enum (buildMask keys) i := by
    rw [← hbi, ← List.getD_eq_getElem _ [] hi, bucketize_getD hmask]
  rw [hgetD] at he
  obtain ⟨p, hpl, _, rfl⟩ := mem_bucketSpec.mp he
  obtain ⟨hik, hv⟩ := List.mem_enum hpl
  exact ⟨p.1, hik, by rw [hv]⟩

/-- Distinct non-empty buckets occupy distinct home slots. -/
lemma buildBuckets_pairwise_home (keys : List Nat) :
    (buildBuckets keys).Pairwise fun b1 b2 =>
      b1 ≠ [] → b2 ≠ [] →
        bucketHome (buildMask keys) b1 ≠ bucketHome (buildMask keys) b2 := by
  have hmask : buildMask keys < buildSize keys := by
    rw [buildMask]
    have := nextPower2_pos keys.length
    rw [buildSize] at *
    omega
  have hsym : ∀ {x y : List Entry},
      (x ≠ [] → y ≠ [] → bucketHome (buildMask keys) x ≠ bucketHome (buildMask keys) y) →
      (y ≠ [] → x ≠ [] → bucketHome (buildMask keys) y ≠ bucketHome (buildMask keys) x) := by
    intro x y hxy hy hx
    exact (hxy hx hy).symm
  rw [buildBuckets, (sortBuckets_perm _).pairwise_iff hsym]
  rw [List.pairwise_iff_getElem]
  intro i j hi hj hij h1 h2
  have hgi : (bucketize keys (buildSize keys) (buildMask keys))[i] =
      bucketSpec keys.enum (buildMask keys) i := by
    rw [← List.getD_eq_getElem _ [] hi, bucketize_getD hmask]
  have hgj : (bucketize keys (buildSize keys) (buildMask keys))[j] =
      bucketSpec keys.enum (buildMask keys) j := by
    rw [← List.getD_eq_getElem _ [] hj, bucketize_getD hmask]
  rw [hgi] at h1 ⊢
  rw [hgj] at h2 ⊢
  rw [bucketSpec_bucketHome h1, bucketSpec_bucketHome h2]
  omega

lemma map_length_sum_set :
    ∀ (h : List (List Entry)) (i : Nat) (e : Entry), i < h.length →
      ((h.set i (h.getD i [] ++ [e])).map List.length).sum =
        (h.map List.length).sum + 1 := by
  intro h
  induction h with
  | nil => intro i e hi; simp at hi
  | cons x xs ih =>
    intro i e hi
    cases i with
    | zero =>
      simp [List.getD_cons_zero]
      omega
    | succ i =>
      have hi' : i < xs.length := by simpa using hi
      simp only [List.set_cons_succ, List.getD_cons_succ, List.map_cons, List.sum_cons]
      rw [ih i e hi']
      omega

lemma map_length_sum_foldl (mask : Nat) :
    ∀ (l : List (Nat × Nat)) (h : List (List Entry)), mask < h.length →
      ((l.foldl (addToBucket mask) h).map List.length).sum =
        (h.map List.length).sum + l.length := by
  intro l
  induction l with
  | nil => intro h _; rfl
  | cons p l ih =>
    intro h hmask
    have hlt : homeOf mask p.2 < h.length :=
      lt_of_le_of_lt (homeOf_le_mask mask p.2) hmask
    rw [List.foldl_cons, ih _ (by rw [length_addToBucket]; exact hmask)]
    rw [addToBucket, map_length_sum_set h _ _ hlt]
    simp
    omega

/-- The buckets partition the keys: bucket lengths sum to the key count. -/
lemma buildBuckets_length_sum (keys : List Nat) :
    ((buildBuckets keys).map List.length).sum = keys.length := by
  have hmask : buildMask keys < buildSize keys := by
    rw [buildMask]
    have := nextPower2_pos keys.length
    rw [buildSize] at *
    omega
  have hperm : ((buildBuckets keys).map List.length).Perm
      ((bucketize keys (buildSize keys) (buildMask keys)).map List.length) :=
    (sortBuckets_perm _).map _
  rw [hperm.sum_eq, bucketize, map_length_sum_foldl (buildMask keys) keys.enum
    (List.replicate (buildSize keys) []) (by simpa using hmask)]
  simp [List.map_replicate]

/-- Every key's entry appears in some bucket of the sorted array. -/
lemma exists_mem_buildBuckets (keys : List Nat) (i : Nat) (hi : i < keys.length) :
    ∃ b, b ∈ buildBuckets keys ∧ (⟨i + 1, keys[i]⟩ : Entry) ∈ b := by
  have hmask : buildMask keys < buildSize keys := by
    rw [buildMask]
    have := nextPower2_pos keys.length
    rw [buildSize] at *
    omega
  set home := homeOf (buildMask keys) keys[i] with hhome
  have hlt : home < (bucketize keys (buildSize keys) (buildMask keys)).length := by
    rw [length_bucketize]
    exact lt_of_le_of_lt (homeOf_le_mask _ _) hmask
  refine ⟨(bucketize keys (buildSize keys) (buildMask keys))[home], ?_, ?_⟩
  · exact (sortBuckets_perm _).mem_iff.mpr (List.getElem_mem hlt)
  · rw [← List.getD_eq_getElem _ [] hlt, bucketize_getD hmask]
    rw [mem_bucketSpec]
    refine ⟨(i, keys[i]), ?_, rfl, rfl⟩
    have hilen : i < keys.enum.length := by
      rw [List.enum_length]
      exact hi
    have henum : keys.enum[i] = (i, keys[i]) := List.getElem_enum _ _ _
    rw [← henum]
    exact List.getElem_mem _

/-! ### Facts about the scratch map, seed attempts and the seed search -/

lemma scratchGet_nil (i : Nat) : scratchGet [] i = 0 := rfl

lemma scratchGet_cons (k v : Nat) (entries : List (Nat × Nat)) (i : Nat) :
    scratchGet ((k, v) :: entries) i = if i = k then v else scratchGet entries i := by
  rw [scratchGet, List.lookup_cons]
  by_cases h : i = k
  · rw [if_pos h]
    have : (i == k) = true := beq_iff_eq.mpr h
    rw [this]
    rfl
  · rw [if_neg h]
    have : (i == k) = false := beq_eq_false_iff_ne.mpr h
    rw [this]
    rfl

lemma scratchGet_eq_zero_iff {entries : List (Nat × Nat)}
    (hnz : ∀ p ∈ entries, p.2 ≠ 0) (i : Nat) :
    scratchGet entries i = 0 ↔ i ∉ entries.map Prod.fst := by
  induction entries with
  | nil => simp [scratchGet_nil]
  | cons p ps ih =>
    obtain ⟨k, v⟩ := p
    rw [scratchGet_cons]
    by_cases h : i = k
    · subst h
      rw [if_pos rfl]
      have hv : v ≠ 0 := hnz (i, v) (List.mem_cons_self _ _)
      simp [hv]
    · rw [if_neg h, ih fun p hp => hnz p (List.mem_cons_of_mem _ hp)]
      simp [h]

lemma tryPlace_eq_some (mask seed : Nat) (v : Nat → Nat) :
    ∀ (ks : List Entry) (acc out : List (Nat × Nat)),
      tryPlace mask seed v ks acc = some out →
      out = (ks.map fun e => (slotOf mask seed e.hash, e.idx)).reverse ++ acc := by
  intro ks
  induction ks with
  | nil =>
    intro acc out h
    rw [tryPlace] at h
    simp at h
    simp [h]
  | cons e rest ih =>
    intro acc out h
    rw [tryPlace] at h
    by_cases hc : scratchGet acc (slotOf mask seed e.hash) = 0 ∧ v (slotOf mask seed e.hash) = 0
    · rw [if_pos hc] at h
      rw [ih _ _ h]
      simp
    · rw [if_neg hc] at h
      exact absurd h (by simp)

lemma tryPlace_isSome_iff (mask seed : Nat) (v : Nat → Nat) :
    ∀ (ks : List Entry) (acc : List (Nat × Nat)),
      (∀ e ∈ ks, e.idx ≠ 0) → (∀ p ∈ acc, p.2 ≠ 0) →
      ((tryPlace mask seed v ks acc).isSome = true ↔
        ((slotsOf mask seed ks).Nodup ∧
         (∀ s ∈ slotsOf mask seed ks, s ∉ acc.map Prod.fst) ∧
         (∀ e ∈ ks, v (slotOf mask seed e.hash) = 0))) := by
  intro ks
  induction ks with
  | nil =>
    intro acc _ _
    simp [tryPlace, slotsOf]
  | cons e rest ih =>
    intro acc hks hacc
    rw [tryPlace]
    have hslots : slotsOf mask seed (e :: rest) =
        slotOf mask seed e.hash :: slotsOf mask seed rest := rfl
    by_cases hc : scratchGet acc (slotOf mask seed e.hash) = 0 ∧ v (slotOf mask seed e.hash) = 0
    · rw [if_pos hc]
      have hidx : e.idx ≠ 0 := hks e (List.mem_cons_self _ _)
      have hacc' : ∀ p ∈ (slotOf mask seed e.hash, e.idx) :: acc, p.2 ≠ 0 := by
        intro p hp
        rcases List.mem_cons.mp hp with rfl | hp
        · exact hidx
        · exact hacc p hp
      rw [ih _ (fun x hx => hks x (List.mem_cons_of_mem _ hx)) hacc']
      have hnotacc : slotOf mask seed e.hash ∉ acc.map Prod.fst :=
        (scratchGet_eq_zero_iff hacc _).mp hc.1
      rw [hslots]
      constructor
      · rintro ⟨hnd, hnin, hfree⟩
        refine ⟨List.nodup_cons.mpr ⟨?_, hnd⟩, ?_, ?_⟩
        · intro hmem
          exact (hnin _ hmem) (by rw [List.map_cons]; exact List.mem_cons_self _ _)
        · intro s hs
          rcases List.mem_cons.mp hs with rfl | hs
          · exact hnotacc
          · have hthis := hnin s hs
            rw [List.map_cons] at hthis
            exact fun hmem => hthis (List.mem_cons_of_mem _ hmem)
        · intro x hx
          rcases List.mem_cons.mp hx with rfl | hx
          · exact hc.2
          · exact hfree x hx
      · rintro ⟨hnd, hnin, hfree⟩
        rw [List.nodup_cons] at hnd
        refine ⟨hnd.2, ?_, ?_⟩
        · intro s hs
          simp only [List.map_cons, List.mem_cons]
          push_neg
          constructor
          · intro hse
            exact hnd.1 (hse ▸ hs)
          · exact fun hmem => (hnin s (List.mem_cons_of_mem _ hs)) hmem
        · exact fun x hx => hfree x (List.mem_cons_of_mem _ hx)
    · rw [if_neg hc]
      refine iff_of_false (by simp) ?_
      rintro ⟨hnd, hnin, hfree⟩
      apply hc
      refine ⟨?_, hfree e (List.mem_cons_self _ _)⟩
      rw [scratchGet_eq_zero_iff hacc]
      exact hnin _ (by rw [hslots]; exact List.mem_cons_self _ _)

lemma commit_notMem :
    ∀ (ps : List (Nat × Nat)) (v : Nat → Nat) (j : Nat),
      j ∉ ps.map Prod.fst → commit ps v j = v j := by
  intro ps
  induction ps with
  | nil => intro v j _; rfl
  | cons p ps ih =>
    intro v j hj
    simp only [List.map_cons, List.mem_cons] at hj
    push_neg at hj
    rw [commit, List.foldl_cons, ← commit, ih _ _ hj.2, upd, if_neg hj.1]

lemma commit_mem :
    ∀ (ps : List (Nat × Nat)) (v : Nat → Nat) (x a : Nat),
      (ps.map Prod.fst).Nodup → (x, a) ∈ ps → commit ps v x = a := by
  intro ps
  induction ps with
  | nil => intro v x a _ h; exact absurd h (List.not_mem_nil _)
  | cons p ps ih =>
    intro v x a hnd hmem
    rw [List.map_cons, List.nodup_cons] at hnd
    rcases List.mem_cons.mp hmem with rfl | hmem
    · rw [commit, List.foldl_cons, ← commit]
      rw [commit_notMem ps _ x hnd.1, upd, if_pos rfl]
    · have hx : (x, a).1 ∈ ps.map Prod.fst := List.mem_map_of_mem _ hmem
      rw [commit, List.foldl_cons, ← commit]
      exact ih _ x a hnd.2 hmem

lemma findSeed_eq_some (mask : Nat) (v : Nat → Nat) (b : List Entry) :
    ∀ (fuel s0 sd : Nat) (out : List (Nat × Nat)),
      findSeed mask v b fuel s0 = some (sd, out) →
      s0 < sd ∧ sd < 2 ^ 31 ∧ tryPlace mask sd v b [] = some out ∧
        ∀ s, s0 < s → s < sd → tryPlace mask s v b [] = none := by
  intro fuel
  induction fuel with
  | zero => intro s0 sd out h; exact absurd h (by rw [findSeed]; simp)
  | succ fuel ih =>
    intro s0 sd out h
    rw [findSeed] at h
    by_cases hlim : 2 ^ 31 ≤ s0 + 1
    · rw [if_pos hlim] at h
      exact absurd h (by simp)
    · rw [if_neg hlim] at h
      cases htry : tryPlace mask (s0 + 1) v b [] with
      | some entries =>
        rw [htry] at h
        simp only [Option.some.injEq, Prod.mk.injEq] at h
        obtain ⟨rfl, rfl⟩ := h
        exact ⟨Nat.lt_succ_self s0, by omega, htry, fun s h1 h2 => by omega⟩
      | none =>
        rw [htry] at h
        obtain ⟨h1, h2, h3, h4⟩ := ih (s0 + 1) sd out h
        refine ⟨by omega, h2, h3, ?_⟩
        intro s hs1 hs2
        rcases Nat.lt_or_ge s (s0 + 1 + 1) with hcase | hcase
        · have : s = s0 + 1 := by omega
          rw [this]
          exact htry
        · exact h4 s (by omega) hs2

lemma findSeed_eq_none (mask : Nat) (v : Nat → Nat) (b : List Entry) :
    ∀ (fuel s0 : Nat), 2 ^ 31 ≤ s0 + fuel →
      findSeed mask v b fuel s0 = none →
      ∀ s, s0 < s → s < 2 ^ 31 → tryPlace mask s v b [] = none := by
  intro fuel
  induction fuel with
  | zero => intro s0 hf _ s hs1 hs2; omega
  | succ fuel ih =>
    intro s0 hf h s hs1 hs2
    rw [findSeed] at h
    by_cases hlim : 2 ^ 31 ≤ s0 + 1
    · omega
    · rw [if_neg hlim] at h
      cases htry : tryPlace mask (s0 + 1) v b [] with
      | some entries => rw [htry] at h; exact absurd h (by simp)
      | none =>
        rw [htry] at h
        rcases Nat.lt_or_ge s (s0 + 1 + 1) with hcase | hcase
        · have : s = s0 + 1 := by omega
          rw [this]
          exact htry
        · exact ih (s0 + 1) (by omega) h s (by omega) hs2

lemma findSeed_none_of_all (mask : Nat) (v : Nat → Nat) (b : List Entry) :
    ∀ (fuel s0 : Nat),
      (∀ s, s0 < s → s < 2 ^ 31 → tryPlace mask s v b [] = none) →
      findSeed mask v b fuel s0 = none := by
  intro fuel
  induction fuel with
  | zero => intro s0 _; rw [findSeed]
  | succ fuel ih =>
    intro s0 hall
    rw [findSeed]
    by_cases hlim : 2 ^ 31 ≤ s0 + 1
    · rw [if_pos hlim]
    · rw [if_neg hlim]
      have htry : tryPlace mask (s0 + 1) v b [] = none :=
        hall (s0 + 1) (Nat.lt_succ_self s0) (by omega)
      rw [htry]
      exact ih (s0 + 1) fun s h1 h2 => hall s (by omega) h2

/-! ### Facts about one committed bucket -/

lemma tryPlace_facts {mask seed : Nat} {v : Nat → Nat} {ks : List Entry}
    {out : List (Nat × Nat)}
    (hidx : ∀ e ∈ ks, e.idx ≠ 0)
    (h : tryPlace mask seed v ks [] = some out) :
    (slotsOf mask seed ks).Nodup ∧
    (∀ e ∈ ks, v (slotOf mask seed e.hash) = 0) ∧
    out.map Prod.fst = (slotsOf mask seed ks).reverse ∧
    (∀ e ∈ ks, (slotOf mask seed e.hash, e.idx) ∈ out) ∧
    (∀ p ∈ out, ∃ e ∈ ks, p = (slotOf mask seed e.hash, e.idx)) := by
  have hsome : (tryPlace mask seed v ks []).isSome = true := by
    rw [h]; rfl
  obtain ⟨hnd, _, hfree⟩ :=
    (tryPlace_isSome_iff mask seed v ks [] hidx (by simp)).mp hsome
  have hout : out = (ks.map fun e => (slotOf mask seed e.hash, e.idx)).reverse ++ [] :=
    tryPlace_eq_some mask seed v ks [] out h
  rw [List.append_nil] at hout
  subst hout
  refine ⟨hnd, hfree, ?_, ?_, ?_⟩
  · rw [← List.map_reverse, List.map_map, slotsOf, ← List.map_reverse]
    rfl
  · intro e he
    rw [List.mem_reverse]
    exact List.mem_map.mpr ⟨e, he, rfl⟩
  · intro p hp
    rw [List.mem_reverse] at hp
    obtain ⟨e, he, rfl⟩ := List.mem_map.mp hp
    exact ⟨e, he, rfl⟩

lemma commit_tryPlace_facts {mask seed : Nat} {v : Nat → Nat} {b : List Entry}
    {out : List (Nat × Nat)}
    (hidx : ∀ e ∈ b, e.idx ≠ 0)
    (h : tryPlace mask seed v b [] = some out) :
    (∀ e ∈ b, commit out v (slotOf mask seed e.hash) = e.idx) ∧
    (∀ j, j ∉ slotsOf mask seed b → commit out v j = v j) ∧
    (∀ j, commit out v j ≠ v j →
      ∃ e ∈ b, j = slotOf mask seed e.hash ∧ commit out v j = e.idx) := by
  obtain ⟨hnd, hfree, hmapfst, hmem, hconv⟩ := tryPlace_facts hidx h
  have hndfst : (out.map Prod.fst).Nodup := by
    rw [hmapfst]
    exact List.nodup_reverse.mpr hnd
  have h1 : ∀ e ∈ b, commit out v (slotOf mask seed e.hash) = e.idx :=
    fun e he => commit_mem out v _ _ hndfst (hmem e he)
  have h2 : ∀ j, j ∉ slotsOf mask seed b → commit out v j = v j := by
    intro j hj
    apply commit_notMem
    rw [hmapfst, List.mem_reverse]
    exact hj
  refine ⟨h1, h2, ?_⟩
  intro j hjne
  by_cases hj : j ∈ slotsOf mask seed b
  · obtain ⟨e, he, rfl⟩ := List.mem_map.mp hj
    exact ⟨e, he, rfl, h1 e he⟩
  · exact absurd (h2 j hj) hjne

lemma occCount_commit {size mask seed : Nat} {v : Nat → Nat} {b : List Entry}
    {out : List (Nat × Nat)}
    (hmasklt : mask < size)
    (hidx : ∀ e ∈ b, e.idx ≠ 0)
    (h : tryPlace mask seed v b [] = some out) :
    occCount size (commit out v) = occCount size v + b.length := by
  obtain ⟨hnd, hfree, _, _, _⟩ := tryPlace_facts hidx h
  obtain ⟨h1, h2, _⟩ := commit_tryPlace_facts hidx h
  have hslot_lt : ∀ x ∈ slotsOf mask seed b, x < size := by
    intro x hx
    obtain ⟨e, _, rfl⟩ := List.mem_map.mp hx
    exact lt_of_le_of_lt Nat.and_le_right hmasklt
  have hunion : ((Finset.range size).filter fun j => commit out v j ≠ 0) =
      ((Finset.range size).filter fun j => v j ≠ 0) ∪ (slotsOf mask seed b).toFinset := by
    ext j
    rw [Finset.mem_union, Finset.mem_filter, Finset.mem_filter, Finset.mem_range,
      List.mem_toFinset]
    constructor
    · rintro ⟨hjlt, hjne⟩
      by_cases hj : j ∈ slotsOf mask seed b
      · exact Or.inr hj
      · exact Or.inl ⟨hjlt, by rw [← h2 j hj]; exact hjne⟩
    · rintro (⟨hjlt, hjne⟩ | hj)
      · refine ⟨hjlt, ?_⟩
        by_cases hjmem : j ∈ slotsOf mask seed b
        · obtain ⟨e, he, rfl⟩ := List.mem_map.mp hjmem
          exact absurd (hfree e he) hjne
        · rw [h2 j hjmem]; exact hjne
      · obtain ⟨e, he, rfl⟩ := List.mem_map.mp hj
        refine ⟨hslot_lt _ (List.mem_map.mpr ⟨e, he, rfl⟩), ?_⟩
        rw [h1 e he]
        exact hidx e he
  have hdisj : Disjoint ((Finset.range size).filter fun j => v j ≠ 0)
      (slotsOf mask seed b).toFinset := by
    rw [Finset.disjoint_left]
    intro j hj1 hj2
    rw [Finset.mem_filter] at hj1
    rw [List.mem_toFinset] at hj2
    obtain ⟨e, he, rfl⟩ := List.mem_map.mp hj2
    exact hj1.2 (hfree e he)
  rw [occCount, occCount, hunion, Finset.card_union_of_disjoint hdisj,
    List.toFinset_card_of_nodup hnd, slotsOf, List.length_map]

/-! ### The multi-bucket phase -/

lemma solveMulti_sound (mask size : Nat) (hmasklt : mask < size) :
    ∀ (bs : List (List Entry)) (v s v' s' : Nat → Nat),
      solveMulti mask bs v s = some (v', s') →
      (∀ b ∈ bs, ∀ e ∈ b, e.idx ≠ 0) →
      (∀ b ∈ bs, ∀ e ∈ b, homeOf mask e.hash = bucketHome mask b) →
      bs.Pairwise (fun b1 b2 => bucketHome mask b1 ≠ bucketHome mask b2) →
      (∀ j, v j ≠ 0 → j < size) →
      ((∀ j, v j ≠ 0 → v' j = v j) ∧
       (∀ j, v' j ≠ v j → v j = 0 ∧ v' j ≠ 0 ∧ j < size) ∧
       (∀ j, (∀ b ∈ bs, bucketHome mask b ≠ j) → s' j = s j) ∧
       (∀ j, s' j ≠ s j → 0 < s' j ∧ s' j < 2 ^ 31) ∧
       (∀ b ∈ bs, 0 < s' (bucketHome mask b) ∧ s' (bucketHome mask b) < 2 ^ 31 ∧
         ∀ e ∈ b, v' (slotOf mask (s' (bucketHome mask b)) e.hash) = e.idx) ∧
       (∀ j, v' j ≠ v j → ∃ b ∈ bs, ∃ e ∈ b,
         j = slotOf mask (s' (bucketHome mask b)) e.hash ∧ v' j = e.idx) ∧
       occCount size v' = occCount size v + (bs.map List.length).sum) := by
  intro bs
  induction bs with
  | nil =>
    intro v s v' s' hsolve _ _ _ _
    rw [solveMulti] at hsolve
    simp only [Option.some.injEq, Prod.mk.injEq] at hsolve
    obtain ⟨rfl, rfl⟩ := hsolve
    refine ⟨fun j _ => rfl, fun j hj => absurd rfl hj, fun j _ => rfl,
      fun j hj => absurd rfl hj, by simp, fun j hj => absurd rfl hj, by simp⟩
  | cons b rest ih =>
    intro v s v' s' hsolve hidx hhome hph hvlt
    rw [solveMulti] at hsolve
    cases hfs : findSeed mask v b (2 ^ 31) 0 with
    | none => rw [hfs] at hsolve; exact absurd hsolve (by simp)
    | some pr =>
      obtain ⟨seed, out⟩ := pr
      rw [hfs] at hsolve
      obtain ⟨hseed_pos, hseed_lt, htry, _⟩ :=
        findSeed_eq_some mask v b (2 ^ 31) 0 seed out hfs
      have hidxb : ∀ e ∈ b, e.idx ≠ 0 := hidx b (List.mem_cons_self _ _)
      obtain ⟨hnd, hfree, hmapfst, hmemout, hconv⟩ := tryPlace_facts hidxb htry
      obtain ⟨hc1, hc2, hc3⟩ := commit_tryPlace_facts hidxb htry
      have hv1_pres : ∀ j, v j ≠ 0 → commit out v j = v j := by
        intro j hj
        apply hc2
        intro hjmem
        obtain ⟨e, he, rfl⟩ := List.mem_map.mp hjmem
        exact hj (hfree e he)
      have hv1_lt : ∀ j, commit out v j ≠ 0 → j < size := by
        intro j hj
        by_cases hjv : commit out v j = v j
        · exact hvlt j (hjv ▸ hj)
        · obtain ⟨e, he, rfl, _⟩ := hc3 j hjv
          exact lt_of_le_of_lt Nat.and_le_right hmasklt
      have hph' := List.pairwise_cons.mp hph
      obtain ⟨ih1, ih2, ih3, ih4, ih5, ih6, ih7⟩ :=
        ih (commit out v) (upd s (bucketHome mask b) seed) v' s' hsolve
          (fun b' hb' => hidx b' (List.mem_cons_of_mem _ hb'))
          (fun b' hb' => hhome b' (List.mem_cons_of_mem _ hb'))
          hph'.2 hv1_lt
      have hs'_home : s' (bucketHome mask b) = seed := by
        have hrest : ∀ b' ∈ rest, bucketHome mask b' ≠ bucketHome mask b :=
          fun b' hb' => (hph'.1 b' hb').symm
        rw [ih3 (bucketHome mask b) hrest]
        simp [upd]
      refine ⟨?_, ?_, ?_, ?_, ?_, ?_, ?_⟩
      · intro j hj
        rw [ih1 j (by rw [hv1_pres j hj]; exact hj), hv1_pres j hj]
      · intro j hj
        by_cases hjv1 : v' j = commit out v j
        · have hne1 : commit out v j ≠ v j := by rw [← hjv1]; exact hj
          obtain ⟨e, he, rfl, heq⟩ := hc3 j hne1
          refine ⟨hfree e he, ?_, lt_of_le_of_lt Nat.and_le_right hmasklt⟩
          rw [hjv1, heq]
          exact hidxb e he
        · obtain ⟨hz, hnz, hlt⟩ := ih2 j hjv1
          refine ⟨?_, hnz, hlt⟩
          by_contra hvj
          have hp := hv1_pres j hvj
          rw [hp] at hz
          exact hvj hz
      · intro j hj
        rw [ih3 j fun b' hb' => hj b' (List.mem_cons_of_mem _ hb')]
        simp only [upd]
        rw [if_neg fun heq => hj b (List.mem_cons_self _ _) heq.symm]
      · intro j hj
        by_cases hjs1 : s' j = upd s (bucketHome mask b) seed j
        · rw [hjs1] at hj ⊢
          simp only [upd] at hj ⊢
          by_cases hjh : j = bucketHome mask b
          · rw [if_pos hjh]
            exact ⟨hseed_pos, hseed_lt⟩
          · rw [if_neg hjh] at hj
            exact absurd rfl hj
        · exact ih4 j hjs1
      · intro b' hb'
        rcases List.mem_cons.mp hb' with rfl | hb'
        · rw [hs'_home]
          refine ⟨hseed_pos, hseed_lt, ?_⟩
          intro e he
          rw [ih1 _ (by rw [hc1 e he]; exact hidxb e he), hc1 e he]
        · exact ih5 b' hb'
      · intro j hj
        by_cases hjv1 : v' j = commit out v j
        · have hne1 : commit out v j ≠ v j := by rw [← hjv1]; exact hj
          obtain ⟨e, he, rfl, heq⟩ := hc3 j hne1
          exact ⟨b, List.mem_cons_self _ _, e, he,
            by rw [hs'_home], by rw [hjv1, heq]⟩
        · obtain ⟨b', hb', e, he, hje, hv'e⟩ := ih6 j hjv1
          exact ⟨b', List.mem_cons_of_mem _ hb', e, he, hje, hv'e⟩
      · rw [ih7, occCount_commit hmasklt hidxb htry, List.map_cons, List.sum_cons]
        omega

/-! ### The free list and the singleton phase -/

lemma freeList_nodup (size : Nat) (v : Nat → Nat) : (freeList size v).Nodup :=
  (List.nodup_range size).filter _

lemma mem_freeList {size : Nat} {v : Nat → Nat} {d : Nat} :
    d ∈ freeList size v ↔ d < size ∧ v d = 0 := by
  rw [freeList, List.mem_filter, List.mem_range]
  simp

lemma freeList_length_add_occCount (size : Nat) (v : Nat → Nat) :
    (freeList size v).length + occCount size v = size := by
  induction size with
  | zero => rfl
  | succ size ih =>
    have hfl : (freeList (size + 1) v).length =
        (freeList size v).length + (if v size = 0 then 1 else 0) := by
      rw [freeList, List.range_succ, List.filter_append, List.length_append, ← freeList]
      by_cases h : v size = 0
      · rw [if_pos h]
        simp [h]
      · rw [if_neg h]
        simp [h]
    have hoc : occCount (size + 1) v = occCount size v + (if v size = 0 then 0 else 1) := by
      rw [occCount, Finset.range_succ, Finset.filter_insert]
      by_cases h : v size = 0
      · rw [if_neg (by simpa using h), if_pos h, ← occCount]
        omega
      · have hnm : size ∉ Finset.filter (fun j => v j ≠ 0) (Finset.range size) := by
          intro hmem
          rw [Finset.mem_filter, Finset.mem_range] at hmem
          omega
        rw [if_pos (by simpa using h), if_neg h,
          Finset.card_insert_of_not_mem hnm, ← occCount]
    rw [hfl, hoc]
    by_cases h : v size = 0
    · rw [if_pos h, if_pos h]
      omega
    · rw [if_neg h, if_neg h]
      omega

lemma occCount_le (size : Nat) (v : Nat → Nat) : occCount size v ≤ size := by
  have := freeList_length_add_occCount size v
  omega

lemma sum_eq_length_of_all_one : ∀ (l : List Nat), (∀ x ∈ l, x = 1) → l.sum = l.length := by
  intro l
  induction l with
  | nil => intro _; rfl
  | cons x xs ih =>
    intro h
    rw [List.sum_cons, List.length_cons, h x (List.mem_cons_self _ _),
      ih fun y hy => h y (List.mem_cons_of_mem _ hy)]
    omega

lemma placeSingles_sound (mask : Nat) :
    ∀ (bs : List (List Entry)) (free : List Nat) (v s : Nat → Nat),
      bs.length ≤ free.length →
      free.Nodup →
      bs.Pairwise (fun b1 b2 => bucketHome mask b1 ≠ bucketHome mask b2) →
      ((∀ j, j ∉ free.take bs.length → (placeSingles mask bs free v s).1 j = v j) ∧
       (∀ j, (∀ b ∈ bs, bucketHome mask b ≠ j) → (placeSingles mask bs free v s).2 j = s j) ∧
       (∀ b ∈ bs, ∃ dst, dst ∈ free.take bs.length ∧
         (placeSingles mask bs free v s).2 (bucketHome mask b) = singletonBit ||| dst ∧
         (placeSingles mask bs free v s).1 dst = b.headI.idx - 1) ∧
       (∀ j, (placeSingles mask bs free v s).2 j ≠ s j →
         ∃ dst, dst ∈ free.take bs.length ∧
           (placeSingles mask bs free v s).2 j = singletonBit ||| dst) ∧
       (∀ j, (placeSingles mask bs free v s).1 j ≠ v j →
         j ∈ free.take bs.length ∧
         ∃ b ∈ bs, (placeSingles mask bs free v s).2 (bucketHome mask b) = singletonBit ||| j ∧
           (placeSingles mask bs free v s).1 j = b.headI.idx - 1)) := by
  intro bs
  induction bs with
  | nil =>
    intro free v s _ _ _
    refine ⟨fun j _ => rfl, fun j _ => rfl, by simp, fun j hj => absurd rfl hj,
      fun j hj => absurd rfl hj⟩
  | cons b rest ih =>
    intro free v s hlen hnd hph
    cases free with
    | nil => simp at hlen
    | cons d free' =>
      rw [List.length_cons, List.length_cons] at hlen
      have hlen' : rest.length ≤ free'.length := by omega
      have hnd' := List.nodup_cons.mp hnd
      have hph' := List.pairwise_cons.mp hph
      have hstep : placeSingles mask (b :: rest) (d :: free') v s =
          placeSingles mask rest free' (upd v d (b.headI.idx - 1))
            (upd s (homeOf mask b.headI.hash) (singletonBit ||| d)) := rfl
      have htake : (d :: free').take (b :: rest).length = d :: free'.take rest.length := by
        rw [List.length_cons, List.take_succ_cons]
      obtain ⟨ih1, ih2, ih3, ih4, ih5⟩ :=
        ih free' (upd v d (b.headI.idx - 1))
          (upd s (homeOf mask b.headI.hash) (singletonBit ||| d))
          hlen' hnd'.2 hph'.2
      have hbhome : bucketHome mask b = homeOf mask b.headI.hash := rfl
      refine ⟨?_, ?_, ?_, ?_, ?_⟩
      · intro j hj
        rw [htake] at hj
        have hjd : j ≠ d := fun h => hj (h ▸ List.mem_cons_self _ _)
        have hjt : j ∉ free'.take rest.length := fun h => hj (List.mem_cons_of_mem _ h)
        rw [hstep, ih1 j hjt]
        simp only [upd]
        rw [if_neg hjd]
      · intro j hj
        rw [hstep, ih2 j fun b' hb' => hj b' (List.mem_cons_of_mem _ hb')]
        simp only [upd]
        rw [if_neg fun heq => hj b (List.mem_cons_self _ _) (by rw [hbhome, heq])]
      · intro b' hb'
        rcases List.mem_cons.mp hb' with rfl | hb'
        · refine ⟨d, by rw [htake]; exact List.mem_cons_self _ _, ?_, ?_⟩
          · rw [hstep, ih2 _ fun b'' hb'' => (hph'.1 b'' hb'').symm]
            simp [upd, hbhome]
          · have hd_take : d ∉ free'.take rest.length := by
              intro hmem
              exact hnd'.1 (List.Sublist.mem hmem (List.take_sublist _ _))
            rw [hstep, ih1 d hd_take]
            simp [upd]
        · obtain ⟨dst, hdst, hseed, hval⟩ := ih3 b' hb'
          refine ⟨dst, by rw [htake]; exact List.mem_cons_of_mem _ hdst, ?_, ?_⟩
          · rw [hstep]; exact hseed
          · rw [hstep]; exact hval
      · intro j hj
        rw [hstep] at hj ⊢
        by_cases hjs1 : (placeSingles mask rest free'
            (upd v d (b.headI.idx - 1)) (upd s (homeOf mask b.headI.hash) (singletonBit ||| d))).2 j =
            upd s (homeOf mask b.headI.hash) (singletonBit ||| d) j
        · rw [hjs1] at hj ⊢
          simp only [upd] at hj ⊢
          by_cases hjh : j = homeOf mask b.headI.hash
          · rw [if_pos hjh]
            exact ⟨d, by rw [htake]; exact List.mem_cons_self _ _, rfl⟩
          · rw [if_neg hjh] at hj
            exact absurd rfl hj
        · obtain ⟨dst, hdst, hval⟩ := ih4 j hjs1
          exact ⟨dst, by rw [htake]; exact List.mem_cons_of_mem _ hdst, hval⟩
      · intro j hj
        rw [hstep] at hj ⊢
        by_cases hjv1 : (placeSingles mask rest free'
            (upd v d (b.headI.idx - 1)) (upd s (homeOf mask b.headI.hash) (singletonBit ||| d))).1 j =
            upd v d (b.headI.idx - 1) j
        · rw [hjv1] at hj ⊢
          simp only [upd] at hj ⊢
          by_cases hjd : j = d
          · subst hjd
            rw [if_pos rfl] at hj ⊢
            refine ⟨by rw [htake]; exact List.mem_cons_self _ _,
              b, List.mem_cons_self _ _, ?_, rfl⟩
            rw [ih2 _ fun b'' hb'' => (hph'.1 b'' hb'').symm]
            simp [upd, hbhome]
          · rw [if_neg hjd] at hj
            exact absurd rfl hj
        · obtain ⟨hmem, b', hb', hseed, hval⟩ := ih5 j hjv1
          refine ⟨by rw [htake]; exact List.mem_cons_of_mem _ hmem,
            b', List.mem_cons_of_mem _ hb', hseed, hval⟩

/-! ### Global facts about a successful build -/

lemma buildMask_lt (keys : List Nat) : buildMask keys < buildSize keys := by
  have := nextPower2_pos keys.length
  rw [buildMask]
  rw [buildSize] at *
  omega

lemma homeOf_lt_buildSize (keys : List Nat) (x : Nat) :
    homeOf (buildMask keys) x < buildSize keys := by
  obtain ⟨k, hk⟩ := nextPower2_pow keys.length
  rw [buildMask, buildSize, hk, homeOf]
  exact and_mask_lt x k

lemma slotOf_lt_buildSize (keys : List Nat) (sd x : Nat) :
    slotOf (buildMask keys) sd x < buildSize keys := by
  obtain ⟨k, hk⟩ := nextPower2_pow keys.length
  rw [buildMask, buildSize, hk, slotOf]
  exact and_mask_lt _ k

lemma buildSize_le (keys : List Nat) (h : keys.length ≤ 2 ^ 31) :
    buildSize keys ≤ 2 ^ 31 :=
  nextPower2_le_pow keys.length 31 h

lemma NewUint64_ok_elim {keys : List Nat} {t : Table} (hne : keys ≠ [])
    (h : NewUint64 keys = .ok t) :
    keys.length ≤ 2 ^ 31 ∧ dupCheck keys = false ∧
    ∃ v1 s1,
      solveMulti (buildMask keys) (multiBuckets keys) (fun _ => 0) (fun _ => 0) =
        some (v1, s1) ∧
      t = ⟨(placeSingles (buildMask keys) (singleBuckets keys)
              (freeList (buildSize keys) v1) (decValues v1) s1).1,
           (placeSingles (buildMask keys) (singleBuckets keys)
              (freeList (buildSize keys) v1) (decValues v1) s1).2,
           buildMask keys, buildSize keys⟩ := by
  rw [NewUint64] at h
  rw [if_neg (by simpa [List.length_eq_zero] using hne)] at h
  by_cases h2 : 2 ^ 31 < keys.length
  · rw [if_pos h2] at h
    exact absurd h (by simp)
  · rw [if_neg h2] at h
    cases hdup : dupCheck keys with
    | true => rw [if_pos (by rw [hdup])] at h; exact absurd h (by simp)
    | false =>
      rw [if_neg (by rw [hdup]; simp)] at h
      refine ⟨by omega, rfl, ?_⟩
      cases hsv : solveMulti (buildMask keys) (multiBuckets keys)
          (fun _ => 0) (fun _ => 0) with
      | none => rw [hsv] at h; exact absurd h (by simp)
      | some pr =>
        obtain ⟨v1, s1⟩ := pr
        rw [hsv] at h
        simp only [Except.ok.injEq] at h
        exact ⟨v1, s1, rfl, h.symm⟩

lemma multiBuckets_hyps (keys : List Nat) :
    (∀ b ∈ multiBuckets keys, ∀ e ∈ b, e.idx ≠ 0) ∧
    (∀ b ∈ multiBuckets keys, ∀ e ∈ b,
      homeOf (buildMask keys) e.hash = bucketHome (buildMask keys) b) ∧
    (multiBuckets keys).Pairwise fun b1 b2 =>
      bucketHome (buildMask keys) b1 ≠ bucketHome (buildMask keys) b2 := by
  have hsub : (multiBuckets keys).Sublist (buildBuckets keys) := by
    rw [multiBuckets]
    exact List.takeWhile_sublist _
  refine ⟨?_, ?_, ?_⟩
  · intro b hb e he
    obtain ⟨i, hi, rfl⟩ := mem_buildBuckets_entry (List.Sublist.mem hb hsub) he
    simp
  · intro b hb e he
    exact mem_buildBuckets_home (List.Sublist.mem hb hsub) he
  · have hp := List.Pairwise.sublist hsub (buildBuckets_pairwise_home keys)
    refine List.Pairwise.imp_of_mem ?_ hp
    intro b1 b2 hb1 hb2 hr
    have h1 : b1 ≠ [] := by
      have := mem_multiBuckets_length hb1
      intro hnil
      rw [hnil] at this
      simp at this
    have h2 : b2 ≠ [] := by
      have := mem_multiBuckets_length hb2
      intro hnil
      rw [hnil] at this
      simp at this
    exact hr h1 h2

lemma singleBuckets_sublist (keys : List Nat) :
    (singleBuckets keys).Sublist (buildBuckets keys) := by
  rw [singleBuckets, restBuckets]
  exact List.Sublist.trans (List.takeWhile_sublist _) (List.dropWhile_sublist _)

lemma singleBuckets_hyps (keys : List Nat) :
    (∀ b ∈ singleBuckets keys, ∀ e ∈ b, e.idx ≠ 0) ∧
    (∀ b ∈ singleBuckets keys, ∀ e ∈ b,
      homeOf (buildMask keys) e.hash = bucketHome (buildMask keys) b) ∧
    (singleBuckets keys).Pairwise fun b1 b2 =>
      bucketHome (buildMask keys) b1 ≠ bucketHome (buildMask keys) b2 := by
  have hsub := singleBuckets_sublist keys
  refine ⟨?_, ?_, ?_⟩
  · intro b hb e he
    obtain ⟨i, hi, rfl⟩ := mem_buildBuckets_entry (List.Sublist.mem hb hsub) he
    simp
  · intro b hb e he
    exact mem_buildBuckets_home (List.Sublist.mem hb hsub) he
  · have hp := List.Pairwise.sublist hsub (buildBuckets_pairwise_home keys)
    refine List.Pairwise.imp_of_mem ?_ hp
    intro b1 b2 hb1 hb2 hr
    have h1 : b1 ≠ [] := by
      have := mem_singleBuckets_length hb1
      intro hnil
      rw [hnil] at this
      simp at this
    have h2 : b2 ≠ [] := by
      have := mem_singleBuckets_length hb2
      intro hnil
      rw [hnil] at this
      simp at this
    exact hr h1 h2

lemma cross_home_ne (keys : List Nat) :
    ∀ b ∈ multiBuckets keys, ∀ b' ∈ singleBuckets keys,
      bucketHome (buildMask keys) b' ≠ bucketHome (buildMask keys) b := by
  have hsub : (multiBuckets keys ++ singleBuckets keys).Sublist (buildBuckets keys) := by
    conv_rhs => rw [buildBuckets_eq_append keys]
    exact List.sublist_append_left _ _
  have hp := List.Pairwise.sublist hsub (buildBuckets_pairwise_home keys)
  rw [List.pairwise_append] at hp
  intro b hb b' hb'
  have h1 : b ≠ [] := by
    have := mem_multiBuckets_length hb
    intro hnil
    rw [hnil] at this
    simp at this
  have h2 : b' ≠ [] := by
    have := mem_singleBuckets_length hb'
    intro hnil
    rw [hnil] at this
    simp at this
  exact fun heq => hp.2.2 b hb b' hb' h1 h2 heq.symm

/-- Bucket lengths: the multi prefix and the singleton buckets together cover
all keys. -/
lemma multi_single_length_sum (keys : List Nat) :
    ((multiBuckets keys).map List.length).sum + (singleBuckets keys).length =
      keys.length := by
  have hdecomp := buildBuckets_eq_append keys
  have hsum := buildBuckets_length_sum keys
  rw [hdecomp, List.map_append, List.map_append, List.sum_append, List.sum_append] at hsum
  have hsingle : ((singleBuckets keys).map List.length).sum = (singleBuckets keys).length := by
    rw [sum_eq_length_of_all_one _ ?_, List.length_map]
    intro x hx
    obtain ⟨b, hb, rfl⟩ := List.mem_map.mp hx
    exact mem_singleBuckets_length hb
  have hjunk : (((restBuckets keys).dropWhile fun b => decide (0 < b.length)).map
      List.length).sum = 0 := by
    apply List.sum_eq_zero
    intro x hx
    obtain ⟨b, hb, rfl⟩ := List.mem_map.mp hx
    rw [mem_dropSingles_eq_nil hb]
    rfl
  rw [hsingle, hjunk] at hsum
  omega

/-- After a successful multi-bucket phase there are at least as many free
slots as singleton buckets. -/
lemma singles_le_freeList {keys : List Nat} {v1 s1 : Nat → Nat}
    (hsolve : solveMulti (buildMask keys) (multiBuckets keys)
      (fun _ => 0) (fun _ => 0) = some (v1, s1)) :
    (singleBuckets keys).length ≤ (freeList (buildSize keys) v1).length := by
  obtain ⟨MH1, MH2, MH3⟩ := multiBuckets_hyps keys
  obtain ⟨_, _, _, _, _, _, S7⟩ :=
    solveMulti_sound (buildMask keys) (buildSize keys) (buildMask_lt keys)
      (multiBuckets keys) (fun _ => 0) (fun _ => 0) v1 s1 hsolve
      MH1 MH2 MH3 (fun j hj => absurd rfl hj)
  have hocc0 : occCount (buildSize keys) (fun _ => 0) = 0 := by
    rw [occCount]
    simp
  rw [hocc0] at S7
  have hbridge := freeList_length_add_occCount (buildSize keys) v1
  have hsum := multi_single_length_sum keys
  have hNle : keys.length ≤ buildSize keys := le_nextPower2 keys.length
  omega

lemma Query_eq_values (t : Table) (hash : Nat) (hsz : t.size ≠ 0) :
    t.Query hash = (t.Values (queryValuesSlot t hash) : Int) := by
  rw [Table.Query, queryValuesSlot, if_neg hsz]
  by_cases h : t.Seeds (homeOf t.Mask hash) &&& singletonBit ≠ 0
  · simp only [if_pos h]
  · simp only [if_neg h]

/-- Main characterisation of a successfully built non-empty table: the slot
`Query` reads for key `i` holds ordinal `i` and is in bounds; every singleton
descriptor's payload is in bounds; and every non-zero `Values` slot is the
query slot of some key. -/
lemma build_ok_main {keys : List Nat} {t : Table} (hne : keys ≠ [])
    (hok : NewUint64 keys = .ok t) :
    t.Mask = buildMask keys ∧ t.size = buildSize keys ∧
    (∀ i, ∀ hi : i < keys.length,
      t.Values (queryValuesSlot t keys[i]) = i ∧ queryValuesSlot t keys[i] < t.size) ∧
    (∀ j, t.Seeds j &&& singletonBit ≠ 0 → t.Seeds j &&& payloadMask < t.size) ∧
    (∀ j, t.Values j ≠ 0 → ∃ i, ∃ hi : i < keys.length, queryValuesSlot t keys[i] = j) := by
  obtain ⟨hle, hdup, v1, s1, hsolve, ht⟩ := NewUint64_ok_elim hne hok
  have hM : t.Mask = buildMask keys := by rw [ht]
  have hsz : t.size = buildSize keys := by rw [ht]
  have hV : t.Values = (placeSingles (buildMask keys) (singleBuckets keys)
      (freeList (buildSize keys) v1) (decValues v1) s1).1 := by rw [ht]
  have hS : t.Seeds = (placeSingles (buildMask keys) (singleBuckets keys)
      (freeList (buildSize keys) v1) (decValues v1) s1).2 := by rw [ht]
  have hsize_le : buildSize keys ≤ 2 ^ 31 := buildSize_le keys hle
  obtain ⟨MH1, MH2, MH3⟩ := multiBuckets_hyps keys
  obtain ⟨SH1, SH2, SH3⟩ := singleBuckets_hyps keys
  obtain ⟨S1, S2, S3, S4, S5, S6, S7⟩ :=
    solveMulti_sound (buildMask keys) (buildSize keys) (buildMask_lt keys)
      (multiBuckets keys) (fun _ => 0) (fun _ => 0) v1 s1 hsolve
      MH1 MH2 MH3 (fun j hj => absurd rfl hj)
  obtain ⟨P1, P2, P3, P4, P5⟩ :=
    placeSingles_sound (buildMask keys) (singleBuckets keys)
      (freeList (buildSize keys) v1) (decValues v1) s1
      (singles_le_freeList hsolve) (freeList_nodup _ _) SH3
  -- for every member of a multi bucket, the query slot holds its ordinal
  have hmulti_chain : ∀ b ∈ multiBuckets keys, ∀ e ∈ b,
      queryValuesSlot t e.hash =
        slotOf (buildMask keys) (s1 (bucketHome (buildMask keys) b)) e.hash ∧
      t.Values (slotOf (buildMask keys) (s1 (bucketHome (buildMask keys) b)) e.hash) =
        e.idx - 1 := by
    intro b hmem e he
    obtain ⟨hpos, hlt31, hplace⟩ := S5 b hmem
    have hhome_e : homeOf (buildMask keys) e.hash = bucketHome (buildMask keys) b :=
      MH2 b hmem e he
    have hsf_home : (placeSingles (buildMask keys) (singleBuckets keys)
        (freeList (buildSize keys) v1) (decValues v1) s1).2
          (bucketHome (buildMask keys) b) = s1 (bucketHome (buildMask keys) b) :=
      P2 _ fun b' hb' => cross_home_ne keys b hmem b' hb'
    have hv1slot : v1 (slotOf (buildMask keys)
        (s1 (bucketHome (buildMask keys) b)) e.hash) = e.idx := hplace e he
    have hv1ne : v1 (slotOf (buildMask keys)
        (s1 (bucketHome (buildMask keys) b)) e.hash) ≠ 0 := by
      rw [hv1slot]
      exact MH1 b hmem e he
    have hnotfree : slotOf (buildMask keys) (s1 (bucketHome (buildMask keys) b)) e.hash ∉
        (freeList (buildSize keys) v1).take (singleBuckets keys).length := by
      intro hmem'
      have := mem_freeList.mp (List.Sublist.mem hmem' (List.take_sublist _ _))
      exact hv1ne this.2
    have hvf : t.Values (slotOf (buildMask keys)
        (s1 (bucketHome (buildMask keys) b)) e.hash) = e.idx - 1 := by
      rw [hV, P1 _ hnotfree, decValues]
      rw [if_neg hv1ne, hv1slot]
    refine ⟨?_, hvf⟩
    rw [queryValuesSlot, hM, hS, hhome_e, hsf_home,
      seed_and_singletonBit hlt31]
    rw [if_neg (by simp), seed_and_payloadMask hlt31]
  -- the three main results
  refine ⟨hM, hsz, ?_, ?_, ?_⟩
  · intro i hi
    obtain ⟨b, hb, he⟩ := exists_mem_buildBuckets keys i hi
    have hbne : b ≠ [] := by
      intro hnil
      rw [hnil] at he
      exact absurd he (List.not_mem_nil _)
    rcases mem_multi_or_single hb hbne with hmem | hmem
    · obtain ⟨hq, hv⟩ := hmulti_chain b hmem _ he
      have hehash : (⟨i + 1, keys[i]⟩ : Entry).hash = keys[i] := rfl
      rw [hehash] at hq hv
      rw [hq, hv, hsz]
      exact ⟨rfl, slotOf_lt_buildSize keys _ _⟩
    · have hlen1 : b.length = 1 := mem_singleBuckets_length hmem
      obtain ⟨a, rfl⟩ := List.length_eq_one.mp hlen1
      rcases List.mem_singleton.mp he with rfl
      obtain ⟨dst, hdst_take, hsf_home, hvf_dst⟩ := P3 _ hmem
      have hdst_free := mem_freeList.mp
        (List.Sublist.mem hdst_take (List.take_sublist _ _))
      have hdst_lt31 : dst < singletonBit := by
        rw [singletonBit]
        omega
      have hhome_e : homeOf (buildMask keys) keys[i] =
          bucketHome (buildMask keys) [(⟨i + 1, keys[i]⟩ : Entry)] :=
        SH2 _ hmem _ (List.mem_singleton_self _)
      have hq : queryValuesSlot t keys[i] = dst := by
        rw [queryValuesSlot, hM, hS, hhome_e, hsf_home]
        rw [if_pos (desc_and_singletonBit dst), desc_and_payloadMask hdst_lt31]
      rw [hq, hV, hvf_dst, hsz]
      refine ⟨?_, hdst_free.1⟩
      show (⟨i + 1, keys[i]⟩ : Entry).idx - 1 = i
      simp
  · intro j hj
    by_cases hsj : t.Seeds j = s1 j
    · rw [hsj] at hj ⊢
      have h0 : s1 j ≠ 0 := by
        intro h0
        rw [h0] at hj
        exact hj (by rw [Nat.zero_and])
      have := S4 j h0
      exact absurd (seed_and_singletonBit this.2) hj
    · rw [hS] at hsj ⊢
      obtain ⟨dst, hdst_take, hval⟩ := P4 j hsj
      have hdst_free := mem_freeList.mp
        (List.Sublist.mem hdst_take (List.take_sublist _ _))
      have hdst_lt31 : dst < singletonBit := by
        rw [singletonBit]
        omega
      rw [hval, desc_and_payloadMask hdst_lt31, hsz]
      exact hdst_free.1
  · intro j hj
    rw [hV] at hj
    by_cases hvj : (placeSingles (buildMask keys) (singleBuckets keys)
        (freeList (buildSize keys) v1) (decValues v1) s1).1 j = decValues v1 j
    · rw [hvj] at hj
      have hv1j : v1 j ≠ 0 := by
        intro h0
        rw [decValues] at hj
        rw [if_pos h0] at hj
        exact hj rfl
      obtain ⟨b, hbm, e, heb, hj_eq, hv1_eq⟩ := S6 j hv1j
      obtain ⟨i', hi', hee⟩ := mem_buildBuckets_entry
        (List.Sublist.mem hbm (by rw [multiBuckets]; exact List.takeWhile_sublist _)) heb
      obtain ⟨hq, _⟩ := hmulti_chain b hbm e heb
      refine ⟨i', hi', ?_⟩
      have hehash : e.hash = keys[i'] := by rw [hee]
      rw [← hehash, hq, ← hj_eq]
    · obtain ⟨hjtake, b, hbm, hsf_desc, hvf_val⟩ := P5 j hvj
      have hj_free := mem_freeList.mp
        (List.Sublist.mem hjtake (List.take_sublist _ _))
      have hj_lt31 : j < singletonBit := by
        rw [singletonBit]
        omega
      have hlen1 : b.length = 1 := mem_singleBuckets_length hbm
      obtain ⟨a, rfl⟩ := List.length_eq_one.mp hlen1
      obtain ⟨i', hi', hee⟩ := mem_buildBuckets_entry
        (List.Sublist.mem hbm (singleBuckets_sublist keys)) (List.mem_singleton_self a)
      subst hee
      refine ⟨i', hi', ?_⟩
      have hhome_e : homeOf (buildMask keys) keys[i'] =
          bucketHome (buildMask keys) [(⟨i' + 1, keys[i']⟩ : Entry)] :=
        SH2 _ hbm _ (List.mem_singleton_self _)
      rw [queryValuesSlot, hM, hS, hhome_e, hsf_desc]
      rw [if_pos (desc_and_singletonBit j), desc_and_payloadMask hj_lt31]

/-! ### The duplicate check and the error cases -/

lemma hasAdjacentDup_iff :
    ∀ {l : List Nat}, l.Sorted (· ≤ ·) → (hasAdjacentDup l = true ↔ ¬ l.Nodup) := by
  intro l
  induction l with
  | nil => intro _; simp [hasAdjacentDup]
  | cons a l ih =>
    intro hs
    cases l with
    | nil => simp [hasAdjacentDup]
    | cons b rest =>
      rw [hasAdjacentDup]
      rw [List.sorted_cons] at hs
      rw [Bool.or_eq_true, beq_iff_eq, ih hs.2]
      constructor
      · rintro (rfl | hnd)
        · intro hnodup
          rw [List.nodup_cons] at hnodup
          exact hnodup.1 (List.mem_cons_self _ _)
        · intro hnodup
          rw [List.nodup_cons] at hnodup
          exact hnd hnodup.2
      · intro hnodup
        by_cases hab : a = b
        · exact Or.inl hab
        · right
          intro hnd2
          apply hnodup
          rw [List.nodup_cons]
          refine ⟨?_, hnd2⟩
          intro hmem
          rcases List.mem_cons.mp hmem with rfl | hmem
          · exact hab rfl
          · have hba : b ≤ a := (List.sorted_cons.mp hs.2).1 a hmem
            have hab' : a ≤ b := hs.1 b (List.mem_cons_self _ _)
            exact hab (le_antisymm hab' hba)

lemma dupCheck_eq_true_iff (keys : List Nat) :
    dupCheck keys = true ↔ ¬ keys.Nodup := by
  rw [dupCheck, hasAdjacentDup_iff (List.sorted_insertionSort _ keys),
    (List.perm_insertionSort _ keys).nodup_iff]

lemma dupCheck_eq_false_of_nodup {keys : List Nat} (hnd : keys.Nodup) :
    ¬ (dupCheck keys = true) := by
  rw [dupCheck_eq_true_iff]
  exact not_not_intro hnd

lemma NewUint64_noSeed_iff (keys : List Nat) (hne : keys ≠ [])
    (hlen : keys.length ≤ 2 ^ 31) (hnd : keys.Nodup) :
    NewUint64 keys = .error .noSeed ↔
      solveMulti (buildMask keys) (multiBuckets keys) (fun _ => 0) (fun _ => 0) = none := by
  rw [NewUint64, if_neg (by simpa [List.length_eq_zero] using hne),
    if_neg (by omega), if_neg (dupCheck_eq_false_of_nodup hnd)]
  cases hsv : solveMulti (buildMask keys) (multiBuckets keys)
      (fun _ => 0) (fun _ => 0) with
  | none => exact iff_of_true rfl rfl
  | some pr =>
    obtain ⟨v1, s1⟩ := pr
    exact iff_of_false (by simp) (by simp)

lemma tryPlace_success_iff (mask sd : Nat) (v : Nat → Nat) (b : List Entry)
    (hidx : ∀ e ∈ b, e.idx ≠ 0) :
    tryPlace mask sd v b [] ≠ none ↔
      ((slotsOf mask sd b).Nodup ∧ ∀ e ∈ b, v (slotOf mask sd e.hash) = 0) := by
  rw [Ne, ← Option.not_isSome_iff_eq_none, not_not,
    tryPlace_isSome_iff mask sd v b [] hidx (by simp)]
  simp

/-! ### The claims -/

/-- C1: for every table successfully returned by `NewUint64` from a sequence
of pairwise-distinct fingerprints, `Query` of `keys[i]` returns `i` for every
index `i` of the input sequence. -/
theorem C1_build_query_roundtrip (keys : List Nat) (t : Table)
    (hnd : keys.Nodup) (hok : NewUint64 keys = .ok t) :
    ∀ i, ∀ hi : i < keys.length, t.Query keys[i] = (i : Int) := by
  intro i hi
  have hne : keys ≠ [] := by
    intro h
    rw [h] at hi
    simp at hi
  obtain ⟨hM, hsz, hkey, _, _⟩ := build_ok_main hne hok
  have hsz0 : t.size ≠ 0 := by
    rw [hsz, buildSize]
    have := nextPower2_pos keys.length
    omega
  rw [Query_eq_values t _ hsz0, (hkey i hi).1]

/-- C3: on a table built from a non-empty key sequence, `Query` of any
fingerprint whatsoever computes only in-bounds indices: the home slot it
reads from `Seeds` and the `Values` slot it routes to (the singleton payload
or the recomputed displaced slot) are all strictly below the table size. -/
theorem C3_query_in_bounds (keys : List Nat) (t : Table)
    (hne : keys ≠ []) (hok : NewUint64 keys = .ok t) :
    ∀ hash, queryInBounds t hash := by
  intro hash
  obtain ⟨hM, hsz, _, hseeds, _⟩ := build_ok_main hne hok
  constructor
  · rw [hM, hsz]
    exact homeOf_lt_buildSize keys hash
  · rw [queryValuesSlot]
    by_cases hbit : t.Seeds (homeOf t.Mask hash) &&& singletonBit ≠ 0
    · rw [if_pos hbit]
      exact hseeds _ hbit
    · rw [if_neg hbit, hM, hsz]
      exact slotOf_lt_buildSize keys _ hash

/-- C4: two `NewUint64` builds of the identical ordered fingerprint sequence
return identical `Values`, `Seeds` and `Mask`, and identical `Query` results
for every fingerprint. -/
theorem C4_deterministic (keys : List Nat) (t1 t2 : Table)
    (h1 : NewUint64 keys = .ok t1) (h2 : NewUint64 keys = .ok t2) :
    t1.Values = t2.Values ∧ t1.Seeds = t2.Seeds ∧ t1.Mask = t2.Mask ∧
    ∀ hash, t1.Query hash = t2.Query hash := by
  rw [h1] at h2
  have heq : t1 = t2 := Except.ok.inj h2
  subst heq
  exact ⟨rfl, rfl, rfl, fun _ => rfl⟩

/-- C5: for a non-empty input of at most `2^31` fingerprints, `NewUint64`
fails with the duplicate-key error exactly when two input fingerprints are
equal (checked on a sorted copy; the input list itself is never modified in
this model, and the error case returns no table by construction of
`Except`). -/
theorem C5_duplicate_error_iff (keys : List Nat)
    (hne : keys ≠ []) (hlen : keys.length ≤ 2 ^ 31) :
    NewUint64 keys = .error .duplicateKey ↔ ¬ keys.Nodup := by
  rw [NewUint64, if_neg (by simpa [List.length_eq_zero] using hne),
    if_neg (by omega)]
  by_cases hdup : dupCheck keys = true
  · rw [if_pos hdup]
    exact iff_of_true rfl ((dupCheck_eq_true_iff keys).mp hdup)
  · rw [if_neg hdup]
    have hnd : keys.Nodup := by
      by_contra hnd
      exact hdup ((dupCheck_eq_true_iff keys).mpr hnd)
    refine iff_of_false ?_ (not_not_intro hnd)
    cases hsv : solveMulti (buildMask keys) (multiBuckets keys)
        (fun _ => 0) (fun _ => 0) with
    | none => simp
    | some pr =>
      obtain ⟨v1, s1⟩ := pr
      simp

/-- C6: for a multi-key bucket the seed search tries candidates `1, 2, 3, …`
and accepts the first seed mapping every member to pairwise-distinct slots
that are not permanently occupied; it returns nothing exactly when no seed in
`[1, 2^31)` works (the seed would reach `2^31`), and on non-empty duplicate-
free input the build surfaces that as its no-seed error. -/
theorem C6_seed_search :
    (∀ (mask : Nat) (v : Nat → Nat) (b : List Entry), (∀ e ∈ b, e.idx ≠ 0) →
      (∀ sd out, findSeed mask v b (2 ^ 31) 0 = some (sd, out) →
        1 ≤ sd ∧ sd < 2 ^ 31 ∧
        ((slotsOf mask sd b).Nodup ∧ ∀ e ∈ b, v (slotOf mask sd e.hash) = 0) ∧
        ∀ sd', 1 ≤ sd' → sd' < sd →
          ¬ ((slotsOf mask sd' b).Nodup ∧ ∀ e ∈ b, v (slotOf mask sd' e.hash) = 0)) ∧
      (findSeed mask v b (2 ^ 31) 0 = none ↔
        ∀ sd, 1 ≤ sd → sd < 2 ^ 31 →
          ¬ ((slotsOf mask sd b).Nodup ∧ ∀ e ∈ b, v (slotOf mask sd e.hash) = 0))) ∧
    (∀ keys : List Nat, keys ≠ [] → keys.length ≤ 2 ^ 31 → keys.Nodup →
      (NewUint64 keys = .error .noSeed ↔
        solveMulti (buildMask keys) (multiBuckets keys) (fun _ => 0) (fun _ => 0) = none)) := by
  constructor
  · intro mask v b hidx
    constructor
    · intro sd out hfs
      obtain ⟨h1, h2, h3, h4⟩ := findSeed_eq_some mask v b (2 ^ 31) 0 sd out hfs
      refine ⟨h1, h2, ?_, ?_⟩
      · exact (tryPlace_success_iff mask sd v b hidx).mp (by rw [h3]; simp)
      · intro sd' hs1 hs2 hgood
        exact (tryPlace_success_iff mask sd' v b hidx).mpr hgood (h4 sd' hs1 hs2)
    · constructor
      · intro hnone sd h1 h2 hgood
        exact (tryPlace_success_iff mask sd v b hidx).mpr hgood
          (findSeed_eq_none mask v b (2 ^ 31) 0 (by omega) hnone sd h1 h2)
      · intro hall
        apply findSeed_none_of_all
        intro sd h1 h2
        by_contra htry
        exact hall sd h1 h2 ((tryPlace_success_iff mask sd v b hidx).mp htry)
  · exact NewUint64_noSeed_iff

/-- C7: `NewUint64 []` succeeds with the empty table (size 0) and `Query`
then returns the sentinel `-1` for every fingerprint without reading any
array; on a table built from one or more keys `Query` never returns `-1`, so
`Query = -1` holds exactly for the zero-key table. -/
theorem C7_empty_table (keys : List Nat) (t : Table)
    (hok : NewUint64 keys = .ok t) :
    (keys = [] → t.size = 0 ∧ ∀ hash, t.Query hash = -1) ∧
    (∀ hash, (t.Query hash = -1 ↔ keys = [])) := by
  have hempty : keys = [] → t.size = 0 ∧ ∀ hash, t.Query hash = -1 := by
    rintro rfl
    rw [NewUint64] at hok
    have hlen0 : ([] : List Nat).length = 0 := rfl
    rw [if_pos hlen0] at hok
    have ht : t = ⟨fun _ => 0, fun _ => 0, 0, 0⟩ := (Except.ok.inj hok).symm
    subst ht
    exact ⟨rfl, fun _ => rfl⟩
  refine ⟨hempty, ?_⟩
  intro hash
  constructor
  · intro hq
    by_contra hne
    obtain ⟨hM, hsz, _, _, _⟩ := build_ok_main hne hok
    have hsz0 : t.size ≠ 0 := by
      rw [hsz, buildSize]
      have := nextPower2_pos keys.length
      omega
    rw [Query_eq_values t hash hsz0] at hq
    omega
  · intro hkeys
    exact (hempty hkeys).2 hash

/-- C8 (as stated) is false: the sort comparator of Go line 79 compares only
bucket sizes, so it does not distinguish two equal-size buckets even when
their home slots differ — here two concrete size-2 buckets with home slots 0
and 1 under mask 1 compare as "not before" in both directions. -/
theorem C8_counterexample :
    ([⟨1, 0⟩, ⟨2, 2⟩] : List Entry).length = ([⟨3, 1⟩, ⟨4, 3⟩] : List Entry).length ∧
    bucketHome 1 [⟨1, 0⟩, ⟨2, 2⟩] ≠ bucketHome 1 [⟨3, 1⟩, ⟨4, 3⟩] ∧
    bucketBefore [⟨1, 0⟩, ⟨2, 2⟩] [⟨3, 1⟩, ⟨4, 3⟩] = false ∧
    bucketBefore [⟨3, 1⟩, ⟨4, 3⟩] [⟨1, 0⟩, ⟨2, 2⟩] = false := by
  refine ⟨rfl, by decide, rfl, rfl⟩

/-- C8 amended: construction processes the multi-key buckets (size ≥ 2) in
descending bucket-size order — the processed prefix is length-descending and
contains exactly the buckets of size ≥ 2 — but equal-size buckets are ordered
by size alone: the comparator never distinguishes two buckets of equal size,
so there is no deterministic tie-break on any secondary key. -/
theorem C8_amended_size_only_order (keys : List Nat) :
    ((multiBuckets keys).Pairwise fun a b => b.length ≤ a.length) ∧
    (∀ b ∈ multiBuckets keys, 1 < b.length) ∧
    (∀ b ∈ buildBuckets keys, 1 < b.length → b ∈ multiBuckets keys) ∧
    (∀ a b : List Entry, a.length = b.length → bucketBefore a b = false) := by
  refine ⟨?_, ?_, ?_, ?_⟩
  · refine List.Pairwise.sublist ?_
      (sortBuckets_sorted (bucketize keys (buildSize keys) (buildMask keys)))
    rw [multiBuckets, buildBuckets]
    exact List.takeWhile_sublist _
  · exact fun b hb => mem_multiBuckets_length hb
  · intro b hb hlen
    rcases mem_multi_or_single hb (by
      intro hnil
      rw [hnil] at hlen
      simp at hlen) with h | h
    · exact h
    · have := mem_singleBuckets_length h
      omega
  · intro a b hab
    rw [bucketBefore, hab]
    simp

/-- C9: when the multi-key phase of a build succeeds, the free list collected
afterwards has at least as many entries as there are singleton buckets left,
so each of the singleton phase's pops acts on a non-empty list. -/
theorem C9_freeList_sufficient (keys : List Nat) (v1 s1 : Nat → Nat)
    (hsolve : solveMulti (buildMask keys) (multiBuckets keys)
      (fun _ => 0) (fun _ => 0) = some (v1, s1)) :
    (singleBuckets keys).length ≤ (freeList (buildSize keys) v1).length ∧
    ∀ n < (singleBuckets keys).length,
      (freeList (buildSize keys) v1).drop n ≠ [] := by
  have h := singles_le_freeList hsolve
  refine ⟨h, ?_⟩
  intro n hn hnil
  have hlen : ((freeList (buildSize keys) v1).drop n).length =
      (freeList (buildSize keys) v1).length - n := List.length_drop n _
  rw [hnil] at hlen
  simp at hlen
  omega

/-- C10: in a table built from a non-empty duplicate-free key sequence, every
`Values` slot that no key's query reads holds `0` — the same value as the
ordinal of the first key (`Query` of the first key returns `0`), so unused
slots are indistinguishable from ordinal 0 through the query interface. -/
theorem C10_unused_slots_zero (keys : List Nat) (t : Table)
    (hnd : keys.Nodup) (hne : keys ≠ []) (hok : NewUint64 keys = .ok t) :
    (∀ j, (∀ i, ∀ hi : i < keys.length, queryValuesSlot t keys[i] ≠ j) →
      t.Values j = 0) ∧
    t.Query keys.headI = 0 := by
  obtain ⟨hM, hsz, hkey, _, hcover⟩ := build_ok_main hne hok
  have hsz0 : t.size ≠ 0 := by
    rw [hsz, buildSize]
    have := nextPower2_pos keys.length
    omega
  constructor
  · intro j hj
    by_contra hnz
    obtain ⟨i, hi, heq⟩ := hcover j hnz
    exact hj i hi heq
  · obtain ⟨k, ks, rfl⟩ := List.exists_cons_of_ne_nil hne
    have h0 := (hkey 0 (by simp)).1
    rw [Query_eq_values _ _ hsz0]
    norm_cast

/-! ### Witnesses -/

/-- Witness for C1 at the concrete distinct keys `[3, 5, 6, 12]`. -/
theorem C1_witness :
    ([3, 5, 6, 12] : List Nat).Nodup ∧
    (NewUint64 [3, 5, 6, 12]).toOption.map (fun t => t.Query 12) = some 3 := by
  refine ⟨by decide, ?_⟩
  obtain ⟨t, ht⟩ : ∃ t, NewUint64 [3, 5, 6, 12] = .ok t := ⟨_, rfl⟩
  rw [ht]
  exact congrArg some
    (C1_build_query_roundtrip [3, 5, 6, 12] t (by decide) ht 3 (by decide))

/-- Witness for C3 at the keys `[2, 9, 17]` and the absent fingerprint 999. -/
theorem C3_witness :
    ([2, 9, 17] : List Nat) ≠ [] ∧
    (NewUint64 [2, 9, 17]).toOption.map
      (fun t => decide (queryInBounds t 999)) = some true := by
  refine ⟨by decide, ?_⟩
  obtain ⟨t, ht⟩ : ∃ t, NewUint64 [2, 9, 17] = .ok t := ⟨_, rfl⟩
  rw [ht]
  exact congrArg some
    (decide_eq_true (C3_query_in_bounds [2, 9, 17] t (by decide) ht 999))

/-- Witness for C4: two builds of `[4, 7]` agree on `Query 7`. -/
theorem C4_witness :
    (NewUint64 [4, 7]).toOption.map (fun t1 =>
      (NewUint64 [4, 7]).toOption.map (fun t2 =>
        decide (t1.Query 7 = t2.Query 7))) = some (some true) := by
  obtain ⟨t, ht⟩ : ∃ t, NewUint64 [4, 7] = .ok t := ⟨_, rfl⟩
  rw [ht]
  exact congrArg some (congrArg some
    (decide_eq_true ((C4_deterministic [4, 7] t t ht ht).2.2.2 7)))

/-- Witness for C5: building `[9, 9]` reports the duplicate-key error. -/
theorem C5_witness :
    (([9, 9] : List Nat) ≠ [] ∧ ([9, 9] : List Nat).length ≤ 2 ^ 31) ∧
    NewUint64 [9, 9] = .error .duplicateKey := by
  refine ⟨⟨by decide, by norm_num⟩, ?_⟩
  exact (C5_duplicate_error_iff [9, 9] (by decide) (by norm_num)).mpr (by decide)

/-- Witness for C6: on the two-member bucket `{(1,0),(2,1)}` with mask 1 and
all slots free, the search returns a seed in `[1, 2^31)`. -/
theorem C6_witness :
    (∀ e ∈ ([⟨1, 0⟩, ⟨2, 1⟩] : List Entry), e.idx ≠ 0) ∧
    (findSeed 1 (fun _ => 0) [⟨1, 0⟩, ⟨2, 1⟩] (2 ^ 31) 0).map
      (fun pr => decide (1 ≤ pr.1 ∧ pr.1 < 2 ^ 31)) = some true := by
  refine ⟨by decide, ?_⟩
  cases hfs : findSeed 1 (fun _ => 0) [⟨1, 0⟩, ⟨2, 1⟩] (2 ^ 31) 0 with
  | none => exact absurd hfs (by decide)
  | some pr =>
    obtain ⟨sd, out⟩ := pr
    have h := (C6_seed_search.1 1 (fun _ => 0) [⟨1, 0⟩, ⟨2, 1⟩] (by decide)).1
      sd out hfs
    exact congrArg some (decide_eq_true ⟨h.1, h.2.1⟩)

/-- Witness for C7: querying 42 on the table built from no keys gives -1. -/
theorem C7_witness :
    (NewUint64 ([] : List Nat)).toOption.map (fun t => t.Query 42) = some (-1) := by
  obtain ⟨t, ht⟩ : ∃ t, NewUint64 ([] : List Nat) = .ok t := ⟨_, rfl⟩
  rw [ht]
  exact congrArg some (((C7_empty_table [] t ht).1 rfl).2 42)

/-- Witness for the amended C8: the comparator rejects ordering between two
concrete equal-size buckets. -/
theorem C8_witness :
    bucketBefore [⟨1, 0⟩, ⟨2, 2⟩] [⟨3, 1⟩, ⟨4, 3⟩] = false :=
  (C8_amended_size_only_order []).2.2.2 _ _ (by decide)

/-- Witness for C9 at the keys `[0, 1, 2, 4]` (whose bucket at home slot 0
has two members, leaving two singleton buckets and two free slots). -/
theorem C9_witness :
    (solveMulti (buildMask [0, 1, 2, 4]) (multiBuckets [0, 1, 2, 4])
      (fun _ => 0) (fun _ => 0)).map
        (fun p => decide ((singleBuckets [0, 1, 2, 4]).length ≤
          (freeList (buildSize [0, 1, 2, 4]) p.1).length)) = some true := by
  obtain ⟨v1, s1, hsv⟩ :
      ∃ v1 s1, solveMulti (buildMask [0, 1, 2, 4]) (multiBuckets [0, 1, 2, 4])
        (fun _ => 0) (fun _ => 0) = some (v1, s1) := ⟨_, _, rfl⟩
  rw [hsv]
  exact congrArg some
    (decide_eq_true (C9_freeList_sufficient [0, 1, 2, 4] v1 s1 hsv).1)

/-- Witness for C10: on the table built from `[5, 8]`, querying the first
key returns ordinal 0. -/
theorem C10_witness :
    (NewUint64 [5, 8]).toOption.map (fun t => t.Query 5) = some 0 := by
  obtain ⟨t, ht⟩ : ∃ t, NewUint64 [5, 8] = .ok t := ⟨_, rfl⟩
  rw [ht]
  exact congrArg some
    ((C10_unused_slots_zero [5, 8] t (by decide) (by decide) ht).2)

end MPH
